import Mathlib

/-!
Verification of the IndexedCP resumable chunked file-transfer system
(Python implementation: `indexedcp/client.py` and `indexedcp/server.py`).

The development shallowly embeds the code: the server request handlers
(`_handle_upload`, `_handle_status`) and chunk tracker
(`mark_chunk_received`, `is_chunk_received`, `get_received_chunks`) become
pure functions over an explicit `ServerState`; the client upload paths
(`upload_chunk`, `_upload_chunk_with_retry`, `_get_received_chunks`,
`buffer_and_upload`, `upload_buffered_files`) become pure functions over
explicit buffers and network-outcome oracles.  Bytes are modelled as
`List Nat`; HTTP exchange is modelled as request/response values.
-/

namespace IndexedCP

/-! ## Decimal strings

The client serialises the chunk index with `str(index)` into the
`X-Chunk-Index` header; the server parses it back with `int(...)`.
We model both for canonical decimal strings (optional leading minus sign
followed by digits; Python `int` additionally strips whitespace and
accepts a leading plus or underscores, which never occur in this
protocol). -/

/-- The character of one decimal digit (`d < 10`). -/
def digitChar10 : Nat → Char
  | 0 => '0' | 1 => '1' | 2 => '2' | 3 => '3' | 4 => '4'
  | 5 => '5' | 6 => '6' | 7 => '7' | 8 => '8' | _ => '9'

/-- The value of one decimal digit character, `none` for a non-digit. -/
def charDigit10? (c : Char) : Option Nat :=
  if c = '0' then some 0 else if c = '1' then some 1
  else if c = '2' then some 2 else if c = '3' then some 3
  else if c = '4' then some 4 else if c = '5' then some 5
  else if c = '6' then some 6 else if c = '7' then some 7
  else if c = '8' then some 8 else if c = '9' then some 9
  else none

/-- Models Python `str(n)` for a natural number: most significant digit
first. -/
def pyStr (n : Nat) : String :=
  if n = 0 then "0" else String.mk (((Nat.digits 10 n).map digitChar10).reverse)

/-- Left-to-right accumulation of decimal digit characters; `none` as soon
as a non-digit appears. -/
def parseDigits? (cs : List Char) : Option Nat :=
  cs.foldl
    (fun acc c =>
      match acc, charDigit10? c with
      | some a, some d => some (a * 10 + d)
      | _, _ => none)
    (some 0)

/-- Models Python `int(s)` on the character list of `s` (canonical decimal
forms only): an optional minus sign followed by at least one digit. -/
def pyIntChars? : List Char → Option Int
  | [] => none
  | c :: rest =>
    if c = '-' then
      match rest, parseDigits? rest with
      | [], _ => none
      | _ :: _, some n => some (-(n : Int))
      | _ :: _, none => none
    else (parseDigits? (c :: rest)).map (fun n => (n : Int))

/-- Models Python `int(s)` for a header string. -/
def pyInt? (s : String) : Option Int :=
  pyIntChars? s.data

theorem charDigit10_digitChar10 {d : Nat} (hd : d < 10) :
    charDigit10? (digitChar10 d) = some d := by
  interval_cases d <;> rfl

theorem digitChar10_ne_dash (d : Nat) : digitChar10 d ≠ '-' := by
  unfold digitChar10
  split <;> decide

/-- Folding decimal digits left to right computes `ofDigits` of the
reversed digit list. -/
theorem foldl_digits_eq_ofDigits (ds : List Nat) :
    ∀ acc : Nat,
      ds.foldl (fun a d => a * 10 + d) acc =
        acc * 10 ^ ds.length + Nat.ofDigits 10 ds.reverse := by
  induction ds with
  | nil => intro acc; simp [Nat.ofDigits]
  | cons d ds ih =>
    intro acc
    rw [List.foldl_cons, ih (acc * 10 + d)]
    rw [List.reverse_cons, Nat.ofDigits_append]
    simp [pow_succ]
    ring

theorem parseDigitsAux (ds : List Nat) (hds : ∀ d ∈ ds, d < 10) (acc : Nat) :
    (ds.map digitChar10).foldl
      (fun acc c =>
        match acc, charDigit10? c with
        | some a, some d => some (a * 10 + d)
        | _, _ => none)
      (some acc) = some (ds.foldl (fun a d => a * 10 + d) acc) := by
  induction ds generalizing acc with
  | nil => rfl
  | cons d ds ih =>
    have hd : d < 10 := hds d (List.mem_cons_self d ds)
    have hrest : ∀ x ∈ ds, x < 10 := fun x hx => hds x (List.mem_cons_of_mem d hx)
    rw [List.map_cons, List.foldl_cons, List.foldl_cons, charDigit10_digitChar10 hd]
    exact ih hrest (acc * 10 + d)

/-- `parseDigits?` succeeds on a digit-character list and computes the same
fold over the digit values. -/
theorem parseDigits?_map (ds : List Nat) (hds : ∀ d ∈ ds, d < 10) :
    parseDigits? (ds.map digitChar10) =
      some (ds.foldl (fun a d => a * 10 + d) 0) :=
  parseDigitsAux ds hds 0

theorem pyIntChars?_cons_ne_dash (c : Char) (cs : List Char) (hc : c ≠ '-') :
    pyIntChars? (c :: cs) = (parseDigits? (c :: cs)).map (fun n => (n : Int)) := by
  simp [pyIntChars?, hc]

/-- Round trip: the server parses back exactly the index the client
serialised. -/
theorem pyInt?_pyStr (n : Nat) : pyInt? (pyStr n) = some (n : Int) := by
  by_cases h0 : n = 0
  · subst h0; rfl
  · have hne : Nat.digits 10 n ≠ [] := Nat.digits_ne_nil_iff_ne_zero.mpr h0
    have hlt : ∀ d ∈ (Nat.digits 10 n).reverse, d < 10 := by
      intro d hd
      exact Nat.digits_lt_base (by norm_num) (List.mem_reverse.mp hd)
    have hparse : parseDigits? (((Nat.digits 10 n).reverse).map digitChar10) =
        some (((Nat.digits 10 n).reverse).foldl (fun a d => a * 10 + d) 0) :=
      parseDigits?_map _ hlt
    have hval : ((Nat.digits 10 n).reverse).foldl (fun a d => a * 10 + d) 0 = n := by
      rw [foldl_digits_eq_ofDigits]
      simp [Nat.ofDigits_digits]
    rcases hrev : ((Nat.digits 10 n).reverse).map digitChar10 with _ | ⟨c, cs⟩
    · exfalso
      apply hne
      have := congrArg List.length hrev
      simp at this
      exact List.eq_nil_of_length_eq_zero (by simp [this])
    · have hc : c ≠ '-' := by
        rcases hd : (Nat.digits 10 n).reverse with _ | ⟨d, ds⟩
        · exfalso; exact hne (by simpa using congrArg List.reverse hd)
        · rw [hd] at hrev
          simp only [List.map_cons, List.cons.injEq] at hrev
          rw [← hrev.1]
          exact digitChar10_ne_dash d
      have hstep : pyInt? (pyStr n) = pyIntChars? (c :: cs) := by
        unfold pyInt? pyStr
        rw [if_neg h0]
        show pyIntChars? (((Nat.digits 10 n).map digitChar10).reverse) = _
        rw [← List.map_reverse, hrev]
      rw [hstep, pyIntChars?_cons_ne_dash c cs hc, ← hrev, hparse, hval]
      rfl

/-! ## Server model (`indexedcp/server.py`)

`ServerState` packages the two pieces of durable server state: the
`received_chunks` SQLite table (rows in insertion order; the primary key
on `(filename, chunk_index)` is realised by `mark_chunk_received`
inserting only absent pairs, mirroring `INSERT OR IGNORE`), and the
output files (keyed by filename; file content grows only by append). -/

/-- Bytes of a chunk or of a target file. -/
abbrev Bytes := List Nat

/-- Durable server-side state: the chunk-tracking ledger plus the target
files in the output directory. -/
structure ServerState where
  received : List (String × Int)
  files : String → Bytes

/-- Fresh server: empty ledger, no file content. -/
def ServerState.empty : ServerState := ⟨[], fun _ => []⟩

/-- Server configuration: the shared-secret API key and the optional
pluggable filename generator (given the client filename and the raw
`X-Chunk-Index` header string). -/
structure ServerConfig where
  apiKey : String
  filenameGenerator : Option (String → String → String)

/-- Models `os.path.basename` (posix): the suffix after the last slash. -/
def basenameList (cs : List Char) : List Char :=
  cs.foldl (fun acc c => if c = '/' then [] else acc ++ [c]) []

/-- Models `os.path.basename` on strings. -/
def basename (s : String) : String := String.mk (basenameList s.data)

/-- Models the two authentication checks of `_handle_upload` and
`_handle_status`: the `Authorization` header must start with `"Bearer "`,
and the rest of the header is the presented token. -/
def bearerToken? (auth : String) : Option String :=
  if auth.data.take 7 = "Bearer ".data then some (String.mk (auth.data.drop 7))
  else none

/-- `IndexCPServer.is_chunk_received`: membership in the ledger. -/
def is_chunk_received (st : ServerState) (filename : String) (chunkIndex : Int) : Bool :=
  decide ((filename, chunkIndex) ∈ st.received)

/-- `IndexCPServer.mark_chunk_received`: `INSERT OR IGNORE` of the pair. -/
def mark_chunk_received (st : ServerState) (filename : String) (chunkIndex : Int) :
    ServerState :=
  if (filename, chunkIndex) ∈ st.received then st
  else { st with received := st.received ++ [(filename, chunkIndex)] }

/-- `IndexCPServer.get_received_chunks`: all chunk indices recorded for
one filename (Python returns them as a set; we keep the row order, which
is irrelevant to membership). -/
def get_received_chunks (st : ServerState) (filename : String) : List Int :=
  (st.received.filter (fun r => r.1 = filename)).map (fun r => r.2)

/-- The body of the upload response sent by `_handle_upload`: an error
JSON, the `alreadyReceived: true` JSON, or the fresh `Chunk received`
JSON. -/
inductive UploadResponse where
  | err (status : Nat) (msg : String)
  | already (actualFilename : String) (chunkIndex : Int) (clientFilename : String)
  | received (actualFilename : String) (chunkIndex : Int) (clientFilename : String)
deriving DecidableEq

/-- An incoming POST `/upload` request: the three custom headers (absent
headers modelled as `none`) and the raw body bytes (whose length is the
`Content-Length`). -/
structure UploadRequest where
  authorization : Option String
  xChunkIndex : Option String
  xFileName : Option String
  body : Bytes

/-- Result of one `_handle_upload` call: the response, the server state
after the request, and whether the handler reached the
`self.rfile.read(content_length)` call (i.e. whether chunk bytes were
read from the request body). -/
structure HandleResult where
  response : UploadResponse
  state : ServerState
  bodyRead : Bool

/-- `ResolveTargetFilename`: the pluggable generator if configured, else
the basename of the client-supplied name. -/
def resolveFilename (srv : ServerConfig) (clientFilename chunkIndexStr : String) :
    String :=
  match srv.filenameGenerator with
  | some g => g clientFilename chunkIndexStr
  | none => basename clientFilename

/-- `IndexCPRequestHandler._handle_upload`.  Steps in source order:
authenticate (two 401 checks, both before the body is read), read the
header defaults (`X-Chunk-Index` defaulting to `"0"`, `X-File-Name`
defaulting to `"uploaded_file.txt"`), resolve the target filename, parse
the index with `int(...)` (a parse failure raises inside the `try` and is
answered with a 500), short-circuit when the chunk is already recorded,
otherwise read the body, append it to the target file and mark the chunk
received. -/
def handle_upload (srv : ServerConfig) (st : ServerState) (req : UploadRequest) :
    HandleResult :=
  match bearerToken? (req.authorization.getD "") with
  | none => ⟨.err 401 "Invalid or missing API key", st, false⟩
  | some tok =>
    if tok ≠ srv.apiKey then ⟨.err 401 "Invalid or missing API key", st, false⟩
    else
      let chunkIndexStr := req.xChunkIndex.getD "0"
      let clientFilename := req.xFileName.getD "uploaded_file.txt"
      let actualFilename := resolveFilename srv clientFilename chunkIndexStr
      match pyInt? chunkIndexStr with
      | none => ⟨.err 500 "Upload error", st, false⟩
      | some idx =>
        if is_chunk_received st actualFilename idx then
          ⟨.already actualFilename idx clientFilename, st, false⟩
        else
          let st' : ServerState :=
            { st with
              files := fun f =>
                if f = actualFilename then st.files actualFilename ++ req.body
                else st.files f }
          ⟨.received actualFilename idx clientFilename,
            mark_chunk_received st' actualFilename idx, true⟩

/-- An incoming GET `/upload/status` request. -/
structure StatusRequest where
  authorization : Option String
  filenameParam : Option String

/-- Response of `_handle_status`. -/
inductive StatusResponse where
  | err (status : Nat) (msg : String)
  | ok (filename : String) (receivedChunks : List Int)
deriving DecidableEq

/-- `IndexCPRequestHandler._handle_status`: authenticate, require a
non-empty `filename` query parameter (`if not filename` also rejects the
empty string), and answer with the recorded chunk indices. -/
def handle_status (srv : ServerConfig) (st : ServerState) (req : StatusRequest) :
    StatusResponse :=
  match bearerToken? (req.authorization.getD "") with
  | none => .err 401 "Invalid or missing API key"
  | some tok =>
    if tok ≠ srv.apiKey then .err 401 "Invalid or missing API key"
    else
      match req.filenameParam with
      | none => .err 400 "Missing filename parameter"
      | some f =>
        if f = "" then .err 400 "Missing filename parameter"
        else .ok f (get_received_chunks st f)

theorem bearerToken?_bearer (key : String) :
    bearerToken? ("Bearer " ++ key) = some key := by
  unfold bearerToken?
  rw [String.data_append]
  have h7 : ("Bearer ".data).length = 7 := rfl
  rw [← h7, List.take_left, List.drop_left, if_pos rfl]

/-! ## Client single-chunk upload and retry (`indexedcp/client.py`)

`upload_chunk` performs one POST and classifies the outcome: a 401
response raises `ValueError` (a terminal authentication error that the
retry loop does not catch); any other 4xx/5xx response or transport
failure raises `requests.RequestException` (retryable); a 2xx response is
parsed as JSON when the content type says so, falling back to a plain
text `message`.  `_upload_chunk_with_retry` invokes it up to
`max_retries` times, sleeping `initial_retry_delay * 2 ** attempt`
between failed attempt `attempt` and the next one, and finally re-raises
the last `RequestException`. -/

/-- The parsed body of a successful upload response
(`response.json()` fields, or a plain-text fallback `message`). -/
structure ResponseData where
  message : String
  actualFilename : Option String
  chunkIndex : Option Int
  clientFilename : Option String
  alreadyReceived : Bool
deriving DecidableEq

/-- Outcome of the raw `requests.post` call: an HTTP response (status,
whether the content type is JSON, the parsed JSON body when it parses,
and the raw text), or a raised `requests.RequestException`
(connection error, timeout). -/
inductive HttpResult where
  | response (status : Nat) (isJson : Bool) (json? : Option ResponseData) (text : String)
  | requestException (msg : String)
deriving DecidableEq

/-- How one `upload_chunk` call terminates: a returned response dict, a
raised `ValueError` (authentication), or a raised
`requests.RequestException` (transport). -/
inductive UploadChunkResult where
  | ok (resp : ResponseData)
  | authError (msg : String)
  | requestError (msg : String)
deriving DecidableEq

/-- `IndexCPClient.upload_chunk`, given the outcome of its one
`requests.post` call (the wrapped exception message abbreviates the
Python format string). -/
def upload_chunk (index : Nat) (fileName : String) (r : HttpResult) :
    UploadChunkResult :=
  match r with
  | .requestException e =>
    .requestError ("Failed to upload chunk " ++ pyStr index ++ " for file " ++
      fileName ++ ": " ++ e)
  | .response status isJson json? text =>
    if status = 401 then .authError "Authentication failed: Invalid API key"
    else if 400 ≤ status ∧ status < 600 then
      .requestError ("Failed to upload chunk " ++ pyStr index ++ " for file " ++
        fileName ++ ": HTTP " ++ pyStr status)
    else if isJson then
      match json? with
      | some d => .ok d
      | none => .ok ⟨text, none, none, none, false⟩
    else .ok ⟨text, none, none, none, false⟩

/-- How `_upload_chunk_with_retry` terminates: returning a response,
propagating the `ValueError` of a 401, re-raising the last
`RequestException` after the final attempt, or (only when
`max_retries = 0`) raising the unset `last_exception = None`. -/
inductive RetryTermination where
  | returned (resp : ResponseData)
  | raisedAuth (msg : String)
  | raisedLast (e : String)
  | raisedNone
deriving DecidableEq

/-- Observable trace of one `_upload_chunk_with_retry` call: how it
ended, how many times it invoked `upload_chunk`, and the backoff delays
passed to `time.sleep`, in order. -/
structure RetryTrace where
  result : RetryTermination
  calls : Nat
  sleeps : List ℚ
deriving DecidableEq

/-- The retry loop from attempt number `attempt` with `rem` attempts
still allowed and `last` the last caught exception.  The code sleeps
`d0 * 2 ** attempt` exactly when the failed attempt is not the final one
(`attempt < max_retries - 1`, i.e. `1 ≤ rem` after consuming the current
attempt). -/
def retryAux (d0 : ℚ) (op : Nat → UploadChunkResult) :
    Nat → Nat → Option String → RetryTrace
  | _, 0, last =>
    ⟨match last with | some e => .raisedLast e | none => .raisedNone, 0, []⟩
  | attempt, rem + 1, _ =>
    match op attempt with
    | .ok r => ⟨.returned r, 1, []⟩
    | .authError m => ⟨.raisedAuth m, 1, []⟩
    | .requestError e =>
      let rest := retryAux d0 op (attempt + 1) rem (some e)
      ⟨rest.result, rest.calls + 1,
        (if 1 ≤ rem then [d0 * 2 ^ attempt] else []) ++ rest.sleeps⟩

/-- `IndexCPClient._upload_chunk_with_retry`, abstracted over the outcome
`op attempt` of the attempt-th `upload_chunk` call. -/
def upload_chunk_with_retry (maxRetries : Nat) (d0 : ℚ)
    (op : Nat → UploadChunkResult) : RetryTrace :=
  retryAux d0 op 0 maxRetries none

/-! ## Client resume-status query (`_get_received_chunks`) -/

/-- Body of the status response as seen by the client: JSON with an
optional `receivedChunks` field, or an unparseable body. -/
inductive StatusBody where
  | json (receivedChunks : Option (List Int))
  | malformed
deriving DecidableEq

/-- Outcome of the `requests.get` status call: an HTTP response or a
raised exception (connection error, timeout). -/
inductive StatusHttpOutcome where
  | response (status : Nat) (body : StatusBody)
  | netError (msg : String)
deriving DecidableEq

/-- `IndexCPClient._get_received_chunks`, given the outcome of its
`requests.get`.  Every failure path (raised exception,
`raise_for_status` on a 4xx/5xx, unparseable JSON) is caught by the
`except Exception` and degrades to the empty set; a JSON body without a
`receivedChunks` key degrades to the empty set via `data.get`.  The
returned list stands for the Python set of indices. -/
def get_received_chunks_client (o : StatusHttpOutcome) : List Int :=
  match o with
  | .netError _ => []
  | .response status body =>
    if 400 ≤ status ∧ status < 600 then []
    else
      match body with
      | .malformed => []
      | .json none => []
      | .json (some l) => l

/-! ## End-to-end `buffer_and_upload` (client composed with the server)

`buffer_and_upload` reads the source file in `chunk_size` pieces,
queries the resume status for the basename of the path, skips the
indices in the returned set and uploads the rest in ascending index
order.  Here the transport is reliable and each POST is handled by
`handle_upload` against the live `ServerState`, so the first retry
attempt always succeeds; the trace records which indices were actually
uploaded. -/

/-- The split of the source file into `size`-byte chunks, as produced by
the `f.read(self.chunk_size)` loop (every chunk non-empty, the last one
possibly short; `read(0)` returns an empty buffer, ending the loop at
once). -/
def splitFile (size : Nat) (content : Bytes) : List Bytes :=
  if h : content = [] ∨ size = 0 then []
  else
    content.take size :: splitFile size (content.drop size)
termination_by content.length
decreasing_by
  push_neg at h
  have h1 : content.length ≠ 0 := fun hc => h.1 (List.eq_nil_of_length_eq_zero hc)
  have h2 : 0 < size := Nat.pos_of_ne_zero h.2
  simp [List.length_drop]
  omega

/-- Splitting and re-joining restores the file content. -/
theorem join_splitFile (size : Nat) (hsize : 1 ≤ size) (content : Bytes) :
    (splitFile size content).flatten = content := by
  generalize hn : content.length = n
  induction n using Nat.strong_induction_on generalizing content with
  | _ n ih =>
    by_cases hc : content = []
    · subst hc; rw [splitFile]; simp
    · rw [splitFile, dif_neg (by push_neg; exact ⟨hc, by omega⟩)]
      have hlen : (content.drop size).length < content.length := by
        have hne : content.length ≠ 0 := fun h => hc (List.eq_nil_of_length_eq_zero h)
        simp only [List.length_drop]
        omega
      rw [List.flatten_cons, ih (content.drop size).length (by rw [← hn]; exact hlen) _ rfl]
      exact List.take_append_drop size content

/-- The POST request `upload_chunk` sends for chunk `i` of `filePath`. -/
def mkUploadRequest (apiKey filePath : String) (i : Nat) (data : Bytes) :
    UploadRequest :=
  { authorization := some ("Bearer " ++ apiKey)
    xChunkIndex := some (pyStr i)
    xFileName := some filePath
    body := data }

/-- The chunk loop of `buffer_and_upload` from chunk index `i`: skip the
indices in the `received` set, deliver the rest to the server, threading
the server state.  Returns the final server state and the indices
uploaded (in order). -/
def uploadChunksFrom (srv : ServerConfig) (apiKey filePath : String)
    (received : List Int) : ServerState → Nat → List Bytes → ServerState × List Nat
  | st, _, [] => (st, [])
  | st, i, d :: rest =>
    if (i : Int) ∈ received then
      uploadChunksFrom srv apiKey filePath received st (i + 1) rest
    else
      let r := handle_upload srv st (mkUploadRequest apiKey filePath i d)
      let res := uploadChunksFrom srv apiKey filePath received r.state (i + 1) rest
      (res.1, i :: res.2)

/-- The client resume query against the live server: build the GET
request, let `handle_status` answer it, and feed the outcome through
`_get_received_chunks` (a 200 JSON answer on success, the error status
otherwise). -/
def clientGetReceivedChunks (srv : ServerConfig) (st : ServerState)
    (apiKey filename : String) : List Int :=
  get_received_chunks_client
    (match handle_status srv st
        { authorization := some ("Bearer " ++ apiKey), filenameParam := some filename } with
     | .ok _ chunks => .response 200 (.json (some chunks))
     | .err s m => .response s (.json none))

/-- `IndexCPClient.buffer_and_upload` against the live server: resolve
the server filename as the basename of the path, query the resume
status, then run the chunk loop from index 0. -/
def buffer_and_upload (srv : ServerConfig) (apiKey filePath : String)
    (chunks : List Bytes) (st : ServerState) : ServerState × List Nat :=
  let serverFilename := basename filePath
  let received := clientGetReceivedChunks srv st apiKey serverFilename
  uploadChunksFrom srv apiKey filePath received st 0 chunks

/-! ## `upload_buffered_files` over the staged chunk buffer

The client buffer is the `chunks` SQLite table.  `upload_buffered_files`
selects all rows ordered by `(file_name, chunk_index)`, returns the
empty mapping at once when there are none, groups the rows by file name
(Python dict, insertion order), and for each file: sorts its rows by
index, queries the resume status for the basename, deletes already
received rows from the buffer, and uploads the rest via the retry
wrapper, adopting a non-empty `actualFilename` from the response.  The
loop has no exception handling: a raised `ValueError` or re-raised
`RequestException` propagates out of the whole call, abandoning the
local results dict and the remaining files.  The network is an oracle;
the returned event list records the network calls made, in order. -/

/-- One row of the client `chunks` table. -/
structure BufferRow where
  id : String
  fileName : String
  chunkIndex : Nat
  data : Bytes
deriving DecidableEq

/-- Lexicographic comparison of character lists by code point, modelling
the SQLite BINARY collation (byte order on UTF-8 text agrees with code
point order). -/
def charListLt : List Char → List Char → Bool
  | [], [] => false
  | [], _ :: _ => true
  | _ :: _, [] => false
  | c :: cs, d :: ds =>
    if c.toNat < d.toNat then true
    else if c.toNat = d.toNat then charListLt cs ds
    else false

/-- String comparison used by the `ORDER BY file_name` of the SELECT. -/
def strLt (a b : String) : Bool := charListLt a.data b.data

/-- The `ORDER BY file_name, chunk_index` ordering of the SELECT. -/
def rowLe (a b : BufferRow) : Prop :=
  strLt a.fileName b.fileName = true ∨
    (a.fileName = b.fileName ∧ a.chunkIndex ≤ b.chunkIndex)

instance : DecidableRel rowLe := fun a b => by
  unfold rowLe
  exact inferInstance

/-- The per-file `chunks.sort(key=lambda x: x[2])` ordering. -/
def idxLe (a b : BufferRow) : Prop :=
  a.chunkIndex ≤ b.chunkIndex

instance : DecidableRel idxLe := fun a b => by
  unfold idxLe
  exact inferInstance

/-- Insertion of one row into the insertion-ordered groups dict
(`file_groups` in the code): append to the existing entry for its file
name, or add a new entry at the end. -/
def addToGroups (gs : List (String × List BufferRow)) (r : BufferRow) :
    List (String × List BufferRow) :=
  match gs with
  | [] => [(r.fileName, [r])]
  | (f, rs) :: rest =>
    if f = r.fileName then (f, rs ++ [r]) :: rest
    else (f, rs) :: addToGroups rest r

/-- Grouping of the selected rows by file name, insertion order kept. -/
def groupByFile (rows : List BufferRow) : List (String × List BufferRow) :=
  rows.foldl addToGroups []

/-- Network oracle for `upload_buffered_files`: the outcome of the
status GET for a server filename, and the outcome of the attempt-th
`upload_chunk` POST for a (client file name, chunk index) pair. -/
structure Net where
  status : String → StatusHttpOutcome
  upload : String → Nat → Nat → UploadChunkResult

/-- One observable network interaction of `upload_buffered_files`. -/
inductive NetEvent where
  | statusQuery (serverFilename : String)
  | uploadCall (fileName : String) (chunkIndex : Nat)
deriving DecidableEq

/-- The exception `upload_buffered_files` can propagate: the terminal
`ValueError` of a 401, or the re-raised last `RequestException` after
retry exhaustion (`none` for the degenerate `max_retries = 0` loop that
raises the unset `last_exception`). -/
inductive ClientError where
  | auth (msg : String)
  | exhausted (last : Option String)
deriving DecidableEq

/-- The per-file chunk loop of `upload_buffered_files`: for each staged
row in order, delete it from the buffer when its index was already
received, otherwise deliver it through the retry wrapper, delete it on
success and adopt a non-empty `actualFilename` from the response; a
raised error aborts at once.  Returns the final server filename for the
mapping (or the propagated error), the buffer after the deletions, and
the upload events. -/
def processFileChunks (net : Net) (maxRetries : Nat) (d0 : ℚ) (fileName : String) :
    List BufferRow → String → List Int → List BufferRow →
    Except ClientError String × List BufferRow × List NetEvent
  | [], sf, _, buf => (.ok sf, buf, [])
  | r :: rest, sf, received, buf =>
    if (r.chunkIndex : Int) ∈ received then
      processFileChunks net maxRetries d0 fileName rest sf received
        (buf.filter (fun b => b.id ≠ r.id))
    else
      let tr := upload_chunk_with_retry maxRetries d0
        (fun attempt => net.upload fileName r.chunkIndex attempt)
      match tr.result with
      | .returned resp =>
        let sf' := match resp.actualFilename with
          | some a => if a = "" then sf else a
          | none => sf
        let res := processFileChunks net maxRetries d0 fileName rest sf' received
          (buf.filter (fun b => b.id ≠ r.id))
        (res.1, res.2.1, .uploadCall fileName r.chunkIndex :: res.2.2)
      | .raisedAuth m =>
        (.error (.auth m), buf, [.uploadCall fileName r.chunkIndex])
      | .raisedLast e =>
        (.error (.exhausted (some e)), buf, [.uploadCall fileName r.chunkIndex])
      | .raisedNone =>
        (.error (.exhausted none), buf, [.uploadCall fileName r.chunkIndex])

/-- The outer multi-file loop of `upload_buffered_files`: one status
query then the chunk loop per staged file; an error propagates
immediately, dropping the results accumulated so far and leaving the
remaining files unprocessed. -/
def processFiles (net : Net) (maxRetries : Nat) (d0 : ℚ) :
    List (String × List BufferRow) → List BufferRow →
    Except ClientError (List (String × String)) × List BufferRow × List NetEvent
  | [], buf => (.ok [], buf, [])
  | (f, rows) :: rest, buf =>
    let sorted := rows.insertionSort idxLe
    let sf := basename f
    let received := get_received_chunks_client (net.status sf)
    let res := processFileChunks net maxRetries d0 f sorted sf received buf
    match res.1 with
    | .error e => (.error e, res.2.1, .statusQuery sf :: res.2.2)
    | .ok sfFinal =>
      let resRest := processFiles net maxRetries d0 rest res.2.1
      match resRest.1 with
      | .error e =>
        (.error e, resRest.2.1, .statusQuery sf :: res.2.2 ++ resRest.2.2)
      | .ok results =>
        (.ok ((f, sfFinal) :: results), resRest.2.1,
          .statusQuery sf :: res.2.2 ++ resRest.2.2)

/-- `IndexCPClient.upload_buffered_files`: select and sort the staged
rows, return the empty mapping when there are none, else run the
grouped per-file loops. -/
def upload_buffered_files (net : Net) (maxRetries : Nat) (d0 : ℚ)
    (buf : List BufferRow) :
    Except ClientError (List (String × String)) × List BufferRow × List NetEvent :=
  let sorted := buf.insertionSort rowLe
  if sorted.isEmpty then (.ok [], buf, [])
  else processFiles net maxRetries d0 (groupByFile sorted) buf

/-! ## Response accessors -/

/-- Whether the upload response is an error response. -/
def UploadResponse.isErr : UploadResponse → Bool
  | .err _ _ => true
  | .already _ _ _ => false
  | .received _ _ _ => false

/-- The `chunkIndex` field of a success response. -/
def UploadResponse.chunkIndex? : UploadResponse → Option Int
  | .err _ _ => none
  | .already _ i _ => some i
  | .received _ i _ => some i

/-- The `actualFilename` field of a success response. -/
def UploadResponse.actualFilename? : UploadResponse → Option String
  | .err _ _ => none
  | .already a _ _ => some a
  | .received a _ _ => some a

/-- Authentication failure of an upload request: the bearer header is
missing or malformed, or the presented token differs from the server
key. -/
def authFails (srv : ServerConfig) (req : UploadRequest) : Prop :=
  match bearerToken? (req.authorization.getD "") with
  | none => True
  | some t => t ≠ srv.apiKey

/-! ## Characterisation lemmas for the upload handler -/

theorem mark_chunk_received_files (s : ServerState) (f : String) (j : Int) :
    (mark_chunk_received s f j).files = s.files := by
  unfold mark_chunk_received
  by_cases hm : (f, j) ∈ s.received
  · rw [if_pos hm]
  · rw [if_neg hm]

theorem mark_chunk_received_not_mem (s : ServerState) (f : String) (j : Int)
    (h : (f, j) ∉ s.received) :
    (mark_chunk_received s f j).received = s.received ++ [(f, j)] := by
  unfold mark_chunk_received
  rw [if_neg h]

/-- Behaviour of `_handle_upload` on an authenticated request, before the
index header is parsed. -/
theorem handle_upload_authed (srv : ServerConfig) (st : ServerState)
    (hIdx hFn : Option String) (body : Bytes) :
    handle_upload srv st ⟨some ("Bearer " ++ srv.apiKey), hIdx, hFn, body⟩ =
      match pyInt? (hIdx.getD "0") with
      | none => ⟨.err 500 "Upload error", st, false⟩
      | some idx =>
        if is_chunk_received st
            (resolveFilename srv (hFn.getD "uploaded_file.txt") (hIdx.getD "0")) idx then
          ⟨.already (resolveFilename srv (hFn.getD "uploaded_file.txt") (hIdx.getD "0"))
            idx (hFn.getD "uploaded_file.txt"), st, false⟩
        else
          ⟨.received (resolveFilename srv (hFn.getD "uploaded_file.txt") (hIdx.getD "0"))
            idx (hFn.getD "uploaded_file.txt"),
            mark_chunk_received
              { st with files := fun f =>
                  if f = resolveFilename srv (hFn.getD "uploaded_file.txt") (hIdx.getD "0")
                  then st.files (resolveFilename srv (hFn.getD "uploaded_file.txt")
                    (hIdx.getD "0")) ++ body
                  else st.files f }
              (resolveFilename srv (hFn.getD "uploaded_file.txt") (hIdx.getD "0")) idx,
            true⟩ := by
  unfold handle_upload
  simp only [Option.getD_some, bearerToken?_bearer]
  rw [if_neg (show ¬(srv.apiKey ≠ srv.apiKey) from fun hh => hh rfl)]

/-- Behaviour of `_handle_upload` on the well-formed chunk request the
client sends. -/
theorem handle_upload_chunk (srv : ServerConfig) (st : ServerState)
    (fname : String) (i : Nat) (body : Bytes) :
    handle_upload srv st (mkUploadRequest srv.apiKey fname i body) =
      if is_chunk_received st (resolveFilename srv fname (pyStr i)) i then
        ⟨.already (resolveFilename srv fname (pyStr i)) i fname, st, false⟩
      else
        ⟨.received (resolveFilename srv fname (pyStr i)) i fname,
          mark_chunk_received
            { st with files := fun f =>
                if f = resolveFilename srv fname (pyStr i) then
                  st.files (resolveFilename srv fname (pyStr i)) ++ body
                else st.files f }
            (resolveFilename srv fname (pyStr i)) i, true⟩ := by
  unfold mkUploadRequest
  rw [handle_upload_authed]
  simp only [Option.getD_some, pyInt?_pyStr]

/-! ## Claim theorems -/

/-- Claim C2: delivering the same authenticated chunk twice appends its
bytes to the target file exactly once; the second delivery
short-circuits before reading the body (because the pair is already in
the tracker), leaves the state unchanged, and answers with the
`alreadyReceived: true` response. -/
theorem claim_C2_idempotent_delivery (srv : ServerConfig) (st : ServerState)
    (fname : String) (i : Nat) (data : Bytes)
    (hfresh : is_chunk_received st (resolveFilename srv fname (pyStr i)) i = false) :
    let req := mkUploadRequest srv.apiKey fname i data
    let actual := resolveFilename srv fname (pyStr i)
    let r1 := handle_upload srv st req
    let r2 := handle_upload srv r1.state req
    r1.state.files actual = st.files actual ++ data ∧
    r2.response = .already actual i fname ∧
    r2.state = r1.state ∧
    r2.bodyRead = false := by
  intro req actual r1 r2
  have hnotmem : (actual, (i : Int)) ∉ st.received := by
    intro hmem
    rw [is_chunk_received, decide_eq_false_iff_not] at hfresh
    exact hfresh hmem
  have h1 : r1 = ⟨.received actual i fname,
      mark_chunk_received
        { st with files := fun f => if f = actual then st.files actual ++ data else st.files f }
        actual i, true⟩ := by
    show handle_upload srv st req = _
    rw [handle_upload_chunk, if_neg (by rw [hfresh]; exact Bool.false_ne_true)]
  have hrec1 : r1.state.received = st.received ++ [(actual, (i : Int))] := by
    rw [h1]
    exact mark_chunk_received_not_mem _ actual i hnotmem
  constructor
  · rw [h1]
    show (mark_chunk_received _ actual i).files actual = _
    rw [mark_chunk_received_files]
    simp
  · have hrecd : is_chunk_received r1.state actual i = true := by
      rw [is_chunk_received, decide_eq_true_eq, hrec1]
      simp
    have h2 : r2 = ⟨.already actual i fname, r1.state, false⟩ := by
      show handle_upload srv r1.state req = _
      rw [handle_upload_chunk, if_pos hrecd]
    rw [h2]
    exact ⟨rfl, rfl, rfl⟩

theorem claim_C2_witness :
    is_chunk_received ServerState.empty
        (resolveFilename ⟨"key", none⟩ "dir/f.txt" (pyStr 0)) 0 = false ∧
    (let req := mkUploadRequest "key" "dir/f.txt" 0 [7, 8]
     let actual := resolveFilename ⟨"key", none⟩ "dir/f.txt" (pyStr 0)
     let r1 := handle_upload ⟨"key", none⟩ ServerState.empty req
     let r2 := handle_upload ⟨"key", none⟩ r1.state req
     r1.state.files actual = ServerState.empty.files actual ++ [7, 8] ∧
     r2.response = .already actual 0 "dir/f.txt" ∧
     r2.state = r1.state ∧
     r2.bodyRead = false) :=
  ⟨by decide,
   claim_C2_idempotent_delivery ⟨"key", none⟩ ServerState.empty "dir/f.txt" 0 [7, 8]
     (by decide)⟩

/-- Claim C6: an upload request whose bearer credential is missing,
malformed or wrong is answered with a 401 without reading the request
body, and both the target files and the chunk tracker are left exactly
as they were. -/
theorem claim_C6_auth_short_circuit (srv : ServerConfig) (st : ServerState)
    (req : UploadRequest) (h : authFails srv req) :
    handle_upload srv st req = ⟨.err 401 "Invalid or missing API key", st, false⟩ := by
  unfold handle_upload
  unfold authFails at h
  cases htok : bearerToken? (req.authorization.getD "") with
  | none => rfl
  | some tok =>
    rw [htok] at h
    have h' : tok ≠ srv.apiKey := h
    simp only [if_pos h']

theorem claim_C6_witness :
    authFails ⟨"key", none⟩ ⟨none, some "0", some "f.txt", [1, 2]⟩ ∧
    handle_upload ⟨"key", none⟩ ServerState.empty ⟨none, some "0", some "f.txt", [1, 2]⟩ =
      ⟨.err 401 "Invalid or missing API key", ServerState.empty, false⟩ :=
  ⟨by unfold authFails; exact trivial,
   claim_C6_auth_short_circuit ⟨"key", none⟩ ServerState.empty _
     (by unfold authFails; exact trivial)⟩

/-- Counterexample to claim C7 as stated: the claim counts every
non-2xx response as a failure that degrades to the empty set, but
`raise_for_status` raises only for 4xx/5xx, so a 304 response carrying
a well-formed JSON body reaches `response.json()` and the client
returns the parsed set `[0, 1]`, not the empty set. -/
theorem claim_C7_counterexample :
    get_received_chunks_client (.response 304 (.json (some [0, 1]))) = [0, 1] ∧
    get_received_chunks_client (.response 304 (.json (some [0, 1]))) ≠ [] := by
  refine ⟨by decide, by decide⟩

/-- Claim C7 (amended): every failure of the resume-status query — a
raised connection or timeout exception, a 4xx/5xx response (the range
for which `raise_for_status` raises), or a malformed, unparseable
body — degrades to the empty received set instead of propagating, so a
status failure never aborts the transfer and the upload proceeds as a
full upload from chunk 0. -/
theorem claim_C7_status_failure_degrades (m : String) (s : Nat) (b : StatusBody)
    (s' : Nat) (hs : 400 ≤ s ∧ s < 600) :
    get_received_chunks_client (.netError m) = [] ∧
    get_received_chunks_client (.response s b) = [] ∧
    get_received_chunks_client (.response s' .malformed) = [] := by
  refine ⟨rfl, ?_, ?_⟩
  · unfold get_received_chunks_client
    simp only [if_pos hs]
  · unfold get_received_chunks_client
    by_cases h : 400 ≤ s' ∧ s' < 600
    · simp only [if_pos h]
    · simp only [if_neg h]

theorem claim_C7_witness :
    (400 ≤ 503 ∧ 503 < 600) ∧
    (get_received_chunks_client (.netError "connection refused") = [] ∧
     get_received_chunks_client (.response 503 (.json (some [0, 1]))) = [] ∧
     get_received_chunks_client (.response 200 .malformed) = []) :=
  ⟨by decide,
   claim_C7_status_failure_degrades "connection refused" 503 (.json (some [0, 1])) 200
     (by decide)⟩

/-- Claim C10: with an empty chunk buffer, `upload_buffered_files`
returns the empty mapping, leaves the buffer empty, and performs no
network call at all (no status query, no chunk delivery). -/
theorem claim_C10_empty_buffer (net : Net) (maxRetries : Nat) (d0 : ℚ) :
    upload_buffered_files net maxRetries d0 [] = (.ok [], [], []) := rfl

/-- Claim C8 (tracker invariants): any sequence of `mark_chunk_received`
calls from a fresh tracker leaves at most one row per
`(filename, chunk_index)` pair; marking an already present pair is a
no-op; and after marking, `is_chunk_received` holds and the index is in
`get_received_chunks`. -/
theorem claim_C8_tracker_idempotent (calls : List (String × Int))
    (st : ServerState) (f : String) (i : Int) :
    ((calls.foldl (fun s p => mark_chunk_received s p.1 p.2)
      ServerState.empty).received).Nodup ∧
    ((f, i) ∈ st.received → mark_chunk_received st f i = st) ∧
    is_chunk_received (mark_chunk_received st f i) f i = true ∧
    i ∈ get_received_chunks (mark_chunk_received st f i) f := by
  refine ⟨?_, ?_, ?_, ?_⟩
  · have key : ∀ (cs : List (String × Int)) (s : ServerState), s.received.Nodup →
        (cs.foldl (fun s p => mark_chunk_received s p.1 p.2) s).received.Nodup := by
      intro cs
      induction cs with
      | nil => intro s hs; exact hs
      | cons c cs ih =>
        intro s hs
        rw [List.foldl_cons]
        apply ih
        unfold mark_chunk_received
        by_cases hm : (c.1, c.2) ∈ s.received
        · rw [if_pos hm]; exact hs
        · rw [if_neg hm]
          simp [List.nodup_append, hs, hm]
    exact key calls ServerState.empty (by simp [ServerState.empty])
  · intro hmem
    unfold mark_chunk_received
    rw [if_pos hmem]
  · rw [is_chunk_received, decide_eq_true_eq]
    unfold mark_chunk_received
    by_cases hm : (f, i) ∈ st.received
    · rw [if_pos hm]; exact hm
    · rw [if_neg hm]; simp
  · unfold get_received_chunks
    have hmem : (f, i) ∈ (mark_chunk_received st f i).received := by
      unfold mark_chunk_received
      by_cases hm : (f, i) ∈ st.received
      · rw [if_pos hm]; exact hm
      · rw [if_neg hm]; simp
    rw [List.mem_map]
    refine ⟨(f, i), ?_, rfl⟩
    rw [List.mem_filter]
    exact ⟨hmem, by simp⟩

theorem claim_C8_witness :
    (("g.txt", (2 : Int)) ∈
      (mark_chunk_received ServerState.empty "g.txt" 2).received) ∧
    ((([("g.txt", (2 : Int)), ("g.txt", 2), ("h.txt", 0)].foldl
        (fun s p => mark_chunk_received s p.1 p.2) ServerState.empty).received).Nodup ∧
     mark_chunk_received (mark_chunk_received ServerState.empty "g.txt" 2) "g.txt" 2 =
       mark_chunk_received ServerState.empty "g.txt" 2 ∧
     is_chunk_received
        (mark_chunk_received (mark_chunk_received ServerState.empty "g.txt" 2) "g.txt" 2)
        "g.txt" 2 = true ∧
     (2 : Int) ∈ get_received_chunks
        (mark_chunk_received (mark_chunk_received ServerState.empty "g.txt" 2) "g.txt" 2)
        "g.txt") := by
  refine ⟨by decide, ?_⟩
  have h := claim_C8_tracker_idempotent [("g.txt", 2), ("g.txt", 2), ("h.txt", 0)]
    (mark_chunk_received ServerState.empty "g.txt" 2) "g.txt" 2
  exact ⟨h.1, h.2.1 (by decide), h.2.2.1, h.2.2.2⟩

/-- Claim C9: an authenticated upload request without the
`X-Chunk-Index` header is processed as chunk 0, and one without the
`X-File-Name` header resolves its target filename from the default
`uploaded_file.txt`; neither is answered with an error. -/
theorem claim_C9_missing_header_defaults (srv : ServerConfig) (st : ServerState)
    (hgen : srv.filenameGenerator = none) (fh : Option String) (i : Nat)
    (d d' : Bytes) :
    let r1 := handle_upload srv st
      { authorization := some ("Bearer " ++ srv.apiKey), xChunkIndex := none,
        xFileName := fh, body := d }
    let r2 := handle_upload srv st
      { authorization := some ("Bearer " ++ srv.apiKey),
        xChunkIndex := some (pyStr i), xFileName := none, body := d' }
    r1.response.isErr = false ∧ r1.response.chunkIndex? = some 0 ∧
    r2.response.isErr = false ∧
    r2.response.actualFilename? = some "uploaded_file.txt" := by
  intro r1 r2
  have hbase : resolveFilename srv "uploaded_file.txt" (pyStr i) = "uploaded_file.txt" := by
    unfold resolveFilename
    rw [hgen]
    show basename "uploaded_file.txt" = "uploaded_file.txt"
    decide
  have hchar1 := handle_upload_authed srv st none fh d
  rw [show (none : Option String).getD "0" = "0" from rfl,
    show pyInt? "0" = some 0 from by decide] at hchar1
  have hchar1' : handle_upload srv st ⟨some ("Bearer " ++ srv.apiKey), none, fh, d⟩ =
      if is_chunk_received st (resolveFilename srv (fh.getD "uploaded_file.txt") "0") 0 then
        ⟨.already (resolveFilename srv (fh.getD "uploaded_file.txt") "0") 0
          (fh.getD "uploaded_file.txt"), st, false⟩
      else
        ⟨.received (resolveFilename srv (fh.getD "uploaded_file.txt") "0") 0
          (fh.getD "uploaded_file.txt"),
          mark_chunk_received
            { st with files := fun f =>
                if f = resolveFilename srv (fh.getD "uploaded_file.txt") "0"
                then st.files (resolveFilename srv (fh.getD "uploaded_file.txt") "0") ++ d
                else st.files f }
            (resolveFilename srv (fh.getD "uploaded_file.txt") "0") 0, true⟩ := hchar1
  have hchar2 := handle_upload_authed srv st (some (pyStr i)) none d'
  rw [show (some (pyStr i)).getD "0" = pyStr i from rfl,
    show (none : Option String).getD "uploaded_file.txt" = "uploaded_file.txt" from rfl,
    pyInt?_pyStr, hbase] at hchar2
  have hchar2' : handle_upload srv st
      ⟨some ("Bearer " ++ srv.apiKey), some (pyStr i), none, d'⟩ =
      if is_chunk_received st "uploaded_file.txt" i then
        ⟨.already "uploaded_file.txt" i "uploaded_file.txt", st, false⟩
      else
        ⟨.received "uploaded_file.txt" i "uploaded_file.txt",
          mark_chunk_received
            { st with files := fun f =>
                if f = "uploaded_file.txt"
                then st.files "uploaded_file.txt" ++ d'
                else st.files f }
            "uploaded_file.txt" i, true⟩ := hchar2
  have hr1 : r1 = handle_upload srv st
      ⟨some ("Bearer " ++ srv.apiKey), none, fh, d⟩ := rfl
  have hr2 : r2 = handle_upload srv st
      ⟨some ("Bearer " ++ srv.apiKey), some (pyStr i), none, d'⟩ := rfl
  rw [hr1, hchar1', hr2, hchar2']
  refine ⟨?_, ?_, ?_, ?_⟩
  · by_cases hrecd : is_chunk_received st
        (resolveFilename srv (fh.getD "uploaded_file.txt") "0") 0
    · rw [if_pos hrecd]; rfl
    · rw [if_neg hrecd]; rfl
  · by_cases hrecd : is_chunk_received st
        (resolveFilename srv (fh.getD "uploaded_file.txt") "0") 0
    · rw [if_pos hrecd]; rfl
    · rw [if_neg hrecd]; rfl
  · by_cases hrecd : is_chunk_received st "uploaded_file.txt" i
    · rw [if_pos hrecd]; rfl
    · rw [if_neg hrecd]; rfl
  · by_cases hrecd : is_chunk_received st "uploaded_file.txt" i
    · rw [if_pos hrecd]; rfl
    · rw [if_neg hrecd]; rfl

theorem claim_C9_witness :
    (⟨"key", none⟩ : ServerConfig).filenameGenerator = none ∧
    (let r1 := handle_upload ⟨"key", none⟩ ServerState.empty
       { authorization := some ("Bearer " ++ "key"), xChunkIndex := none,
         xFileName := some "a/b.txt", body := [1] }
     let r2 := handle_upload ⟨"key", none⟩ ServerState.empty
       { authorization := some ("Bearer " ++ "key"),
         xChunkIndex := some (pyStr 3), xFileName := none, body := [2] }
     r1.response.isErr = false ∧ r1.response.chunkIndex? = some 0 ∧
     r2.response.isErr = false ∧
     r2.response.actualFilename? = some "uploaded_file.txt") :=
  ⟨rfl,
   claim_C9_missing_header_defaults ⟨"key", none⟩ ServerState.empty rfl
     (some "a/b.txt") 3 [1] [2]⟩

/-! ## Retry controller lemmas and claims C4, C5 -/

theorem retryAux_calls_le (d0 : ℚ) (op : Nat → UploadChunkResult) :
    ∀ (rem attempt : Nat) (last : Option String),
      (retryAux d0 op attempt rem last).calls ≤ rem := by
  intro rem
  induction rem with
  | zero => intro attempt last; exact Nat.le_refl 0
  | succ rem ih =>
    intro attempt last
    unfold retryAux
    cases op attempt with
    | ok r => exact Nat.succ_le_succ (Nat.zero_le rem)
    | authError m => exact Nat.succ_le_succ (Nat.zero_le rem)
    | requestError e =>
      exact Nat.succ_le_succ (ih (attempt + 1) (some e))

/-- A run in which every allowed attempt fails with a transport error:
all `rem + 1` attempts are made, the sleeps are the exponential backoff
schedule, and the loop ends by re-raising the error of the final
attempt. -/
theorem retryAux_all_fail (d0 : ℚ) (op : Nat → UploadChunkResult)
    (e : Nat → String) :
    ∀ (rem attempt : Nat) (last : Option String),
      (∀ k, k ≤ rem → op (attempt + k) = .requestError (e (attempt + k))) →
      retryAux d0 op attempt (rem + 1) last =
        ⟨.raisedLast (e (attempt + rem)), rem + 1,
          (List.range' attempt rem).map (fun k => d0 * 2 ^ k)⟩ := by
  intro rem
  induction rem with
  | zero =>
    intro attempt last h
    have h0 : op attempt = .requestError (e attempt) := by
      have := h 0 (Nat.le_refl 0)
      simpa using this
    unfold retryAux
    rw [h0]
    simp [retryAux]
  | succ rem ih =>
    intro attempt last h
    have h0 : op attempt = .requestError (e attempt) := by
      have := h 0 (Nat.zero_le _)
      simpa using this
    have hrest : ∀ k, k ≤ rem → op ((attempt + 1) + k) =
        .requestError (e ((attempt + 1) + k)) := by
      intro k hk
      have heq : attempt + 1 + k = attempt + (k + 1) := by omega
      rw [heq]
      exact h (k + 1) (by omega)
    have hihr := ih (attempt + 1) (some (e attempt)) hrest
    show (match op attempt with
      | .ok r => (⟨.returned r, 1, []⟩ : RetryTrace)
      | .authError m => ⟨.raisedAuth m, 1, []⟩
      | .requestError er =>
        let rest := retryAux d0 op (attempt + 1) (rem + 1) (some er)
        ⟨rest.result, rest.calls + 1,
          (if 1 ≤ rem + 1 then [d0 * 2 ^ attempt] else []) ++ rest.sleeps⟩) = _
    rw [h0]
    show (let rest := retryAux d0 op (attempt + 1) (rem + 1) (some (e attempt))
      (⟨rest.result, rest.calls + 1,
        (if 1 ≤ rem + 1 then [d0 * 2 ^ attempt] else []) ++ rest.sleeps⟩ : RetryTrace)) = _
    rw [hihr]
    have harith : attempt + 1 + rem = attempt + (rem + 1) := by omega
    have hrange : List.range' attempt (rem + 1) = attempt :: List.range' (attempt + 1) rem :=
      List.range'_succ attempt rem 1
    simp only [harith, hrange, List.map_cons]
    rw [if_pos (by omega : 1 ≤ rem + 1)]
    rfl

/-- Claim C4: the retry controller calls the delivery operation at most
`R` times; when every attempt fails with a transport error it makes
exactly `R` calls, sleeps exactly `d0 * 2 ^ k` after each failed
attempt `k < R - 1`, and terminates by re-raising the last underlying
error. -/
theorem claim_C4_retry_backoff (R : Nat) (hR : 1 ≤ R) (d0 : ℚ)
    (op : Nat → UploadChunkResult) (e : Nat → String)
    (hfail : ∀ k, k < R → op k = .requestError (e k)) :
    (∀ op' : Nat → UploadChunkResult,
      (upload_chunk_with_retry R d0 op').calls ≤ R) ∧
    upload_chunk_with_retry R d0 op =
      ⟨.raisedLast (e (R - 1)), R,
        (List.range (R - 1)).map (fun k => d0 * 2 ^ k)⟩ := by
  constructor
  · intro op'
    exact retryAux_calls_le d0 op' R 0 none
  · obtain ⟨rem, rfl⟩ : ∃ rem, R = rem + 1 :=
      ⟨R - 1, by omega⟩
    unfold upload_chunk_with_retry
    have h := retryAux_all_fail d0 op e rem 0 none
      (fun k hk => by simpa using hfail k (by omega))
    rw [h]
    have : List.range' 0 rem = List.range rem := (List.range_eq_range' rem).symm
    simp [this]

theorem claim_C4_witness :
    (1 ≤ 3) ∧
    ((∀ op' : Nat → UploadChunkResult,
        (upload_chunk_with_retry 3 1 op').calls ≤ 3) ∧
     upload_chunk_with_retry 3 1 (fun _ => .requestError "timeout") =
       ⟨.raisedLast "timeout", 3, (List.range 2).map (fun k => (1 : ℚ) * 2 ^ k)⟩) :=
  ⟨by norm_num,
   claim_C4_retry_backoff 3 (by norm_num) 1 (fun _ => .requestError "timeout")
     (fun _ => "timeout") (fun k _ => rfl)⟩

/-- Claim C5: a 401 response makes `upload_chunk` raise the terminal
`ValueError` at once, and the retry controller neither retries nor
sleeps after it: with the first attempt answering 401, the whole retry
call makes exactly one attempt, sleeps never, and propagates the
authentication error. -/
theorem claim_C5_auth_not_retried (i : Nat) (f : String) (isJson : Bool)
    (json? : Option ResponseData) (t : String) (R : Nat) (hR : 1 ≤ R) (d0 : ℚ)
    (op : Nat → UploadChunkResult) (m : String) (hop : op 0 = .authError m) :
    upload_chunk i f (.response 401 isJson json? t) =
      .authError "Authentication failed: Invalid API key" ∧
    upload_chunk_with_retry R d0 op = ⟨.raisedAuth m, 1, []⟩ := by
  constructor
  · rfl
  · obtain ⟨rem, rfl⟩ : ∃ rem, R = rem + 1 := ⟨R - 1, by omega⟩
    unfold upload_chunk_with_retry
    unfold retryAux
    rw [hop]

theorem claim_C5_witness :
    (1 ≤ 3) ∧
    ((fun _ => UploadChunkResult.authError "Authentication failed: Invalid API key") 0 =
      .authError "Authentication failed: Invalid API key") ∧
    (upload_chunk 4 "f.txt" (.response 401 true none "denied") =
      .authError "Authentication failed: Invalid API key" ∧
     upload_chunk_with_retry 3 1
        (fun _ => .authError "Authentication failed: Invalid API key") =
       ⟨.raisedAuth "Authentication failed: Invalid API key", 1, []⟩) :=
  ⟨by norm_num, rfl,
   claim_C5_auth_not_retried 4 "f.txt" true none "denied" 3 (by norm_num) 1
     (fun _ => .authError "Authentication failed: Invalid API key")
     "Authentication failed: Invalid API key" rfl⟩

/-! ## Lemmas about the end-to-end chunk loop (claim C1) -/

theorem resolveFilename_default (srv : ServerConfig) (hgen : srv.filenameGenerator = none)
    (fname s : String) : resolveFilename srv fname s = basename fname := by
  unfold resolveFilename
  rw [hgen]

/-- Splitting the loop over an appended chunk list. -/
theorem uploadChunksFrom_append (srv : ServerConfig) (apiKey filePath : String)
    (received : List Int) :
    ∀ (l₁ l₂ : List Bytes) (st : ServerState) (i0 : Nat),
      uploadChunksFrom srv apiKey filePath received st i0 (l₁ ++ l₂) =
        ((uploadChunksFrom srv apiKey filePath received
            (uploadChunksFrom srv apiKey filePath received st i0 l₁).1
            (i0 + l₁.length) l₂).1,
         (uploadChunksFrom srv apiKey filePath received st i0 l₁).2 ++
           (uploadChunksFrom srv apiKey filePath received
             (uploadChunksFrom srv apiKey filePath received st i0 l₁).1
             (i0 + l₁.length) l₂).2) := by
  intro l₁
  induction l₁ with
  | nil =>
    intro l₂ st i0
    simp [uploadChunksFrom]
  | cons d rest ih =>
    intro l₂ st i0
    have hidx : i0 + (d :: rest).length = (i0 + 1) + rest.length := by
      simp [List.length_cons]
      omega
    rw [hidx]
    by_cases hskip : (i0 : Int) ∈ received
    · show uploadChunksFrom srv apiKey filePath received st i0 (d :: (rest ++ l₂)) = _
      simp only [uploadChunksFrom]
      rw [if_pos hskip, if_pos hskip]
      exact ih l₂ st (i0 + 1)
    · show uploadChunksFrom srv apiKey filePath received st i0 (d :: (rest ++ l₂)) = _
      simp only [uploadChunksFrom]
      rw [if_neg hskip, if_neg hskip]
      rw [ih l₂ _ (i0 + 1)]
      simp

/-- When every index of the segment is in the received set, the loop
skips everything: no upload, state unchanged. -/
theorem uploadChunksFrom_skipall (srv : ServerConfig) (apiKey filePath : String)
    (received : List Int) :
    ∀ (l : List Bytes) (st : ServerState) (i0 : Nat),
      (∀ j : Nat, i0 ≤ j → j < i0 + l.length → (j : Int) ∈ received) →
      uploadChunksFrom srv apiKey filePath received st i0 l = (st, []) := by
  intro l
  induction l with
  | nil => intro st i0 h; rfl
  | cons d rest ih =>
    intro st i0 h
    simp only [uploadChunksFrom]
    rw [if_pos (h i0 (Nat.le_refl i0) (by simp only [List.length_cons]; omega))]
    exact ih st (i0 + 1) (fun j hj1 hj2 => by
      apply h j (by omega)
      simp only [List.length_cons]
      omega)

/-- When no index of the segment is in the received set nor already
tracked, the loop uploads every chunk in ascending order, appending each
to the target file and recording each in the tracker. -/
theorem uploadChunksFrom_noskip (srv : ServerConfig) (filePath : String)
    (hgen : srv.filenameGenerator = none) (received : List Int) :
    ∀ (l : List Bytes) (st : ServerState) (i0 : Nat),
      (∀ j : Nat, i0 ≤ j → j < i0 + l.length →
        ((j : Int) ∉ received ∧ (basename filePath, (j : Int)) ∉ st.received)) →
      (uploadChunksFrom srv srv.apiKey filePath received st i0 l).1.received =
        st.received ++
          (List.range' i0 l.length).map (fun j : Nat => (basename filePath, (j : Int))) ∧
      (∀ g : String,
        (uploadChunksFrom srv srv.apiKey filePath received st i0 l).1.files g =
          if g = basename filePath then st.files (basename filePath) ++ l.flatten
          else st.files g) ∧
      (uploadChunksFrom srv srv.apiKey filePath received st i0 l).2 =
        List.range' i0 l.length := by
  intro l
  induction l with
  | nil =>
    intro st i0 h
    refine ⟨by simp [uploadChunksFrom], ?_, by simp [uploadChunksFrom]⟩
    intro g
    show st.files g = _
    by_cases hg : g = basename filePath
    · rw [if_pos hg, hg]
      simp
    · rw [if_neg hg]
  | cons d rest ih =>
    intro st i0 h
    have hskip : (i0 : Int) ∉ received :=
      (h i0 (Nat.le_refl i0) (by simp only [List.length_cons]; omega)).1
    have hnotrec : (basename filePath, (i0 : Int)) ∉ st.received :=
      (h i0 (Nat.le_refl i0) (by simp only [List.length_cons]; omega)).2
    have hfreshb : is_chunk_received st (resolveFilename srv filePath (pyStr i0)) i0 = false := by
      rw [resolveFilename_default srv hgen, is_chunk_received, decide_eq_false_iff_not]
      exact hnotrec
    have hchar := handle_upload_chunk srv st filePath i0 d
    rw [if_neg (by rw [hfreshb]; exact Bool.false_ne_true)] at hchar
    rw [resolveFilename_default srv hgen] at hchar
    set st1 := (handle_upload srv st (mkUploadRequest srv.apiKey filePath i0 d)).state
      with hst1
    have hst1v : st1 = mark_chunk_received
        { st with files := fun f =>
            if f = basename filePath then st.files (basename filePath) ++ d
            else st.files f }
        (basename filePath) i0 := by
      rw [hst1, hchar]
    have hst1rec : st1.received = st.received ++ [(basename filePath, (i0 : Int))] := by
      rw [hst1v]
      exact mark_chunk_received_not_mem _ _ _ hnotrec
    have hst1files : st1.files = fun f =>
        if f = basename filePath then st.files (basename filePath) ++ d
        else st.files f := by
      rw [hst1v, mark_chunk_received_files]
    have hcond : ∀ j : Nat, i0 + 1 ≤ j → j < (i0 + 1) + rest.length →
        ((j : Int) ∉ received ∧ (basename filePath, (j : Int)) ∉ st1.received) := by
      intro j hj1 hj2
      have hmain := h j (by omega) (by simp only [List.length_cons]; omega)
      refine ⟨hmain.1, ?_⟩
      rw [hst1rec]
      intro hmem
      rcases List.mem_append.mp hmem with hm | hm
      · exact hmain.2 hm
      · rw [List.mem_singleton] at hm
        have : (j : Int) = (i0 : Int) := (Prod.mk.injEq _ _ _ _ ▸ hm).2
        have : j = i0 := Nat.cast_inj.mp this
        omega
    have hih := ih st1 (i0 + 1) hcond
    have hgoal : uploadChunksFrom srv srv.apiKey filePath received st i0 (d :: rest) =
        ((uploadChunksFrom srv srv.apiKey filePath received st1 (i0 + 1) rest).1,
         i0 :: (uploadChunksFrom srv srv.apiKey filePath received st1 (i0 + 1) rest).2) := by
      simp only [uploadChunksFrom]
      rw [if_neg hskip]
    rw [hgoal]
    have hlen : (d :: rest).length = rest.length + 1 := rfl
    refine ⟨?_, ?_, ?_⟩
    · show (uploadChunksFrom srv srv.apiKey filePath received st1 (i0 + 1) rest).1.received = _
      rw [hih.1, hst1rec, List.append_assoc, hlen, List.range'_succ i0 rest.length 1,
        List.map_cons]
      rfl
    · intro g
      show (uploadChunksFrom srv srv.apiKey filePath received st1 (i0 + 1) rest).1.files g = _
      rw [hih.2.1 g]
      simp only [hst1files]
      by_cases hg : g = basename filePath
      · subst hg
        simp only [if_pos rfl]
        simp [List.flatten_cons, List.append_assoc]
      · simp only [if_neg hg]
    · show i0 :: (uploadChunksFrom srv srv.apiKey filePath received st1 (i0 + 1) rest).2 = _
      rw [hih.2.2, hlen, List.range'_succ i0 rest.length 1]

/-- The authenticated resume query against the live server returns
exactly the recorded chunk set. -/
theorem clientGetReceivedChunks_received (srv : ServerConfig) (st : ServerState)
    (fname : String) (hf : fname ≠ "") :
    clientGetReceivedChunks srv st srv.apiKey fname = get_received_chunks st fname := by
  unfold clientGetReceivedChunks handle_status
  simp only [Option.getD_some, bearerToken?_bearer]
  rw [if_neg (show ¬(srv.apiKey ≠ srv.apiKey) from fun hh => hh rfl)]
  simp only [if_neg hf]
  rfl

/-- Projecting the ledger rows of one file back to their indices. -/
theorem received_rows_project (bn : String) :
    ∀ js : List Nat,
      (((js.map (fun j : Nat => (bn, (j : Int)))).filter
        (fun r => r.1 = bn)).map (fun r => r.2)) =
        js.map (fun j : Nat => (j : Int)) := by
  intro js
  induction js with
  | nil => rfl
  | cons j js ih =>
    simp only [List.map_cons, List.filter_cons]
    rw [if_pos (by simp)]
    rw [List.map_cons]
    rw [ih]

/-- Claim C1 (resume correctness): with the transfer of a file (split
into size-byte chunks) interrupted after the first `k` chunks were
confirmed, rerunning `buffer_and_upload` queries the resume status,
skips the indices `0 .. k-1` in the returned received set, uploads
exactly the chunks `k .. N-1`, and the resulting target file equals the
whole source content — byte-identical to the file produced by an
uninterrupted run, which uploads all of `0 .. N-1`. -/
theorem claim_C1_resume_correctness (srv : ServerConfig) (filePath : String)
    (size : Nat) (content : Bytes) (k : Nat)
    (hgen : srv.filenameGenerator = none) (hsize : 1 ≤ size)
    (hbn : basename filePath ≠ "")
    (hk : k ≤ (splitFile size content).length) :
    (buffer_and_upload srv srv.apiKey filePath (splitFile size content)
        (uploadChunksFrom srv srv.apiKey filePath [] ServerState.empty 0
          ((splitFile size content).take k)).1).2 =
      List.range' k ((splitFile size content).length - k) ∧
    (buffer_and_upload srv srv.apiKey filePath (splitFile size content)
        (uploadChunksFrom srv srv.apiKey filePath [] ServerState.empty 0
          ((splitFile size content).take k)).1).1.files (basename filePath) = content ∧
    (buffer_and_upload srv srv.apiKey filePath (splitFile size content)
        ServerState.empty).2 = List.range' 0 (splitFile size content).length ∧
    (buffer_and_upload srv srv.apiKey filePath (splitFile size content)
        ServerState.empty).1.files (basename filePath) = content := by
  set chunks := splitFile size content with hchunks
  set bn := basename filePath with hbndef
  set stk := (uploadChunksFrom srv srv.apiKey filePath [] ServerState.empty 0
    (chunks.take k)).1 with hstk
  have hNlen : (chunks.take k).length = k := by
    rw [List.length_take]
    omega
  -- (A) the interrupted state: chunks 0..k-1 tracked, their bytes appended
  have hA := uploadChunksFrom_noskip srv filePath hgen [] (chunks.take k)
    ServerState.empty 0
    (fun j h1 h2 => ⟨List.not_mem_nil _, List.not_mem_nil _⟩)
  have hstk_rec : stk.received =
      (List.range' 0 k).map (fun j : Nat => (bn, (j : Int))) := by
    rw [hstk, hA.1, hNlen]
    rfl
  have hstk_files : stk.files bn = (chunks.take k).flatten := by
    rw [hstk, hA.2.1 bn, if_pos rfl]
    rfl
  -- (B) the resume query on the interrupted state answers 0..k-1
  have hstat : clientGetReceivedChunks srv stk srv.apiKey bn =
      (List.range' 0 k).map (fun j : Nat => (j : Int)) := by
    rw [clientGetReceivedChunks_received srv stk bn hbn]
    unfold get_received_chunks
    rw [hstk_rec]
    exact received_rows_project bn (List.range' 0 k)
  -- (C) the resumed run: skip 0..k-1, upload k..N-1
  have hres_run : buffer_and_upload srv srv.apiKey filePath chunks stk =
      uploadChunksFrom srv srv.apiKey filePath
        ((List.range' 0 k).map (fun j : Nat => (j : Int))) stk 0 chunks := by
    unfold buffer_and_upload
    rw [← hbndef]
    show uploadChunksFrom srv srv.apiKey filePath
      (clientGetReceivedChunks srv stk srv.apiKey bn) stk 0 chunks = _
    rw [hstat]
  have hsplitck : chunks.take k ++ chunks.drop k = chunks := List.take_append_drop k chunks
  have happ := uploadChunksFrom_append srv srv.apiKey filePath
    ((List.range' 0 k).map (fun j : Nat => (j : Int))) (chunks.take k) (chunks.drop k)
    stk 0
  have hskipall : uploadChunksFrom srv srv.apiKey filePath
      ((List.range' 0 k).map (fun j : Nat => (j : Int))) stk 0 (chunks.take k) =
      (stk, []) := by
    apply uploadChunksFrom_skipall
    intro j hj1 hj2
    rw [hNlen] at hj2
    exact List.mem_map.mpr ⟨j, List.mem_range'_1.mpr ⟨Nat.zero_le j, by omega⟩, rfl⟩
  have hnoskipcond : ∀ j : Nat, k ≤ j → j < k + (chunks.drop k).length →
      ((j : Int) ∉ (List.range' 0 k).map (fun j : Nat => (j : Int)) ∧
        (bn, (j : Int)) ∉ stk.received) := by
    intro j hj1 hj2
    constructor
    · intro hmem
      obtain ⟨j', hj', hcast⟩ := List.mem_map.mp hmem
      have hj'k := (List.mem_range'_1.mp hj').2
      have : j' = j := Nat.cast_inj.mp hcast
      omega
    · rw [hstk_rec]
      intro hmem
      obtain ⟨j', hj', heq⟩ := List.mem_map.mp hmem
      have hj'k := (List.mem_range'_1.mp hj').2
      have : (j' : Int) = (j : Int) := congrArg Prod.snd heq
      have : j' = j := Nat.cast_inj.mp this
      omega
  have hnoskip := uploadChunksFrom_noskip srv filePath hgen
    ((List.range' 0 k).map (fun j : Nat => (j : Int))) (chunks.drop k) stk k
    hnoskipcond
  have hresumed : buffer_and_upload srv srv.apiKey filePath chunks stk =
      ((uploadChunksFrom srv srv.apiKey filePath
          ((List.range' 0 k).map (fun j : Nat => (j : Int))) stk k (chunks.drop k)).1,
       (uploadChunksFrom srv srv.apiKey filePath
          ((List.range' 0 k).map (fun j : Nat => (j : Int))) stk k (chunks.drop k)).2) := by
    rw [hres_run]
    conv_lhs => rw [← hsplitck]
    rw [happ, hskipall]
    simp [hNlen]
  -- (D) fresh full run from the empty server
  have hstat0 : clientGetReceivedChunks srv ServerState.empty srv.apiKey bn = [] := by
    rw [clientGetReceivedChunks_received srv ServerState.empty bn hbn]
    rfl
  have hfresh_run : buffer_and_upload srv srv.apiKey filePath chunks ServerState.empty =
      uploadChunksFrom srv srv.apiKey filePath [] ServerState.empty 0 chunks := by
    unfold buffer_and_upload
    rw [← hbndef]
    show uploadChunksFrom srv srv.apiKey filePath
      (clientGetReceivedChunks srv ServerState.empty srv.apiKey bn) ServerState.empty
      0 chunks = _
    rw [hstat0]
  have hfreshnoskip := uploadChunksFrom_noskip srv filePath hgen [] chunks
    ServerState.empty 0
    (fun j h1 h2 => ⟨List.not_mem_nil _, List.not_mem_nil _⟩)
  refine ⟨?_, ?_, ?_, ?_⟩
  · rw [hresumed]
    rw [hnoskip.2.2, List.length_drop]
  · rw [hresumed]
    rw [hnoskip.2.1 bn, if_pos rfl, hstk_files, ← List.flatten_append, hsplitck]
    rw [hchunks]
    exact join_splitFile size hsize content
  · rw [hfresh_run, hfreshnoskip.2.2]
  · rw [hfresh_run, hfreshnoskip.2.1 bn, if_pos rfl]
    show [] ++ chunks.flatten = content
    rw [List.nil_append, hchunks]
    exact join_splitFile size hsize content

theorem claim_C1_witness :
    ((⟨"key", none⟩ : ServerConfig).filenameGenerator = none ∧ 1 ≤ 2 ∧
      basename "data/file.bin" ≠ "" ∧
      1 ≤ (splitFile 2 [10, 11, 12, 13, 14]).length) ∧
    ((buffer_and_upload ⟨"key", none⟩ "key" "data/file.bin"
        (splitFile 2 [10, 11, 12, 13, 14])
        (uploadChunksFrom ⟨"key", none⟩ "key" "data/file.bin" [] ServerState.empty 0
          ((splitFile 2 [10, 11, 12, 13, 14]).take 1)).1).2 =
      List.range' 1 ((splitFile 2 [10, 11, 12, 13, 14]).length - 1) ∧
     (buffer_and_upload ⟨"key", none⟩ "key" "data/file.bin"
        (splitFile 2 [10, 11, 12, 13, 14])
        (uploadChunksFrom ⟨"key", none⟩ "key" "data/file.bin" [] ServerState.empty 0
          ((splitFile 2 [10, 11, 12, 13, 14]).take 1)).1).1.files
        (basename "data/file.bin") = [10, 11, 12, 13, 14] ∧
     (buffer_and_upload ⟨"key", none⟩ "key" "data/file.bin"
        (splitFile 2 [10, 11, 12, 13, 14])
        ServerState.empty).2 = List.range' 0 (splitFile 2 [10, 11, 12, 13, 14]).length ∧
     (buffer_and_upload ⟨"key", none⟩ "key" "data/file.bin"
        (splitFile 2 [10, 11, 12, 13, 14])
        ServerState.empty).1.files (basename "data/file.bin") = [10, 11, 12, 13, 14]) := by
  constructor
  · refine ⟨rfl, by norm_num, by decide, ?_⟩
    rw [splitFile]
    simp
  · exact claim_C1_resume_correctness ⟨"key", none⟩ "data/file.bin" 2
      [10, 11, 12, 13, 14] 1 rfl (by norm_num) (by decide)
      (by rw [splitFile]; simp)

/-! ## Observations of the buffered-upload run (claim C3) -/

instance exceptDecEq {ε α : Type} [DecidableEq ε] [DecidableEq α] :
    DecidableEq (Except ε α) := fun a b =>
  match a, b with
  | .ok x, .ok y =>
    match decEq x y with
    | isTrue h => isTrue (h ▸ rfl)
    | isFalse h => isFalse (fun hc => h (Except.ok.inj hc))
  | .error x, .error y =>
    match decEq x y with
    | isTrue h => isTrue (h ▸ rfl)
    | isFalse h => isFalse (fun hc => h (Except.error.inj hc))
  | .ok _, .error _ => isFalse (fun hc => Except.noConfusion hc)
  | .error _, .ok _ => isFalse (fun hc => Except.noConfusion hc)

/-- The chunk indices of the upload calls made for client file `f`, in
order. -/
def uploadsOf (f : String) (evs : List NetEvent) : List Nat :=
  evs.filterMap (fun e =>
    match e with
    | .uploadCall g i => if g = f then some i else none
    | .statusQuery _ => none)

/-- The client file names of all upload calls, in order. -/
def uploadNames (evs : List NetEvent) : List String :=
  evs.filterMap (fun e =>
    match e with
    | .uploadCall g _ => some g
    | .statusQuery _ => none)

/-- The chunk loop of one file uploads a subsequence of that file rows in
row order, and every event it emits is an upload call for that file. -/
theorem processFileChunks_events (net : Net) (mr : Nat) (d0 : ℚ) (f : String) :
    ∀ (rows : List BufferRow) (sf : String) (received : List Int)
      (buf : List BufferRow),
      ((uploadsOf f (processFileChunks net mr d0 f rows sf received buf).2.2).Sublist
        (rows.map (fun r => r.chunkIndex))) ∧
      (∀ e ∈ (processFileChunks net mr d0 f rows sf received buf).2.2,
        ∃ i, e = NetEvent.uploadCall f i) := by
  intro rows
  induction rows with
  | nil =>
    intro sf received buf
    exact ⟨List.nil_sublist _, fun e he => absurd he (List.not_mem_nil e)⟩
  | cons r rest ih =>
    intro sf received buf
    by_cases hskip : (r.chunkIndex : Int) ∈ received
    · have hstep : processFileChunks net mr d0 f (r :: rest) sf received buf =
          processFileChunks net mr d0 f rest sf received
            (buf.filter (fun b => b.id ≠ r.id)) := by
        simp only [processFileChunks]
        rw [if_pos hskip]
      rw [hstep]
      obtain ⟨h1, h2⟩ := ih sf received (buf.filter (fun b => b.id ≠ r.id))
      exact ⟨h1.cons r.chunkIndex, h2⟩
    · cases htr : (upload_chunk_with_retry mr d0
          (fun attempt => net.upload f r.chunkIndex attempt)).result with
      | returned resp =>
        have hstep : (processFileChunks net mr d0 f (r :: rest) sf received buf).2.2 =
            NetEvent.uploadCall f r.chunkIndex ::
              (processFileChunks net mr d0 f rest
                (match resp.actualFilename with
                 | some a => if a = "" then sf else a
                 | none => sf) received (buf.filter (fun b => b.id ≠ r.id))).2.2 := by
          simp only [processFileChunks, if_neg hskip, htr]
        rw [hstep]
        obtain ⟨h1, h2⟩ := ih
          (match resp.actualFilename with
           | some a => if a = "" then sf else a
           | none => sf) received (buf.filter (fun b => b.id ≠ r.id))
        constructor
        · show (uploadsOf f (NetEvent.uploadCall f r.chunkIndex :: _)).Sublist _
          unfold uploadsOf
          rw [List.filterMap_cons]
          simp only [if_pos rfl]
          exact h1.cons₂ r.chunkIndex
        · intro e he
          rcases List.mem_cons.mp he with he | he
          · exact ⟨r.chunkIndex, he⟩
          · exact h2 e he
      | raisedAuth m =>
        have hstep : (processFileChunks net mr d0 f (r :: rest) sf received buf).2.2 =
            [NetEvent.uploadCall f r.chunkIndex] := by
          simp only [processFileChunks, if_neg hskip, htr]
        rw [hstep]
        constructor
        · show (uploadsOf f [NetEvent.uploadCall f r.chunkIndex]).Sublist _
          unfold uploadsOf
          rw [List.filterMap_cons]
          simp only [if_pos rfl]
          exact (List.nil_sublist _).cons₂ r.chunkIndex
        · intro e he
          rw [List.mem_singleton] at he
          exact ⟨r.chunkIndex, he⟩
      | raisedLast er =>
        have hstep : (processFileChunks net mr d0 f (r :: rest) sf received buf).2.2 =
            [NetEvent.uploadCall f r.chunkIndex] := by
          simp only [processFileChunks, if_neg hskip, htr]
        rw [hstep]
        constructor
        · show (uploadsOf f [NetEvent.uploadCall f r.chunkIndex]).Sublist _
          unfold uploadsOf
          rw [List.filterMap_cons]
          simp only [if_pos rfl]
          exact (List.nil_sublist _).cons₂ r.chunkIndex
        · intro e he
          rw [List.mem_singleton] at he
          exact ⟨r.chunkIndex, he⟩
      | raisedNone =>
        have hstep : (processFileChunks net mr d0 f (r :: rest) sf received buf).2.2 =
            [NetEvent.uploadCall f r.chunkIndex] := by
          simp only [processFileChunks, if_neg hskip, htr]
        rw [hstep]
        constructor
        · show (uploadsOf f [NetEvent.uploadCall f r.chunkIndex]).Sublist _
          unfold uploadsOf
          rw [List.filterMap_cons]
          simp only [if_pos rfl]
          exact (List.nil_sublist _).cons₂ r.chunkIndex
        · intro e he
          rw [List.mem_singleton] at he
          exact ⟨r.chunkIndex, he⟩

/-- Events that are all upload calls for one file have constant name
list. -/
theorem uploadNames_all_f (f : String) :
    ∀ evs : List NetEvent, (∀ e ∈ evs, ∃ i, e = NetEvent.uploadCall f i) →
      ∃ n, uploadNames evs = List.replicate n f := by
  intro evs
  induction evs with
  | nil => exact fun _ => ⟨0, rfl⟩
  | cons e evs ih =>
    intro h
    obtain ⟨i, rfl⟩ := h e (List.mem_cons_self e evs)
    obtain ⟨n, hn⟩ := ih (fun x hx => h x (List.mem_cons_of_mem _ hx))
    refine ⟨n + 1, ?_⟩
    unfold uploadNames
    rw [List.filterMap_cons]
    unfold uploadNames at hn
    simp only [List.replicate_succ]
    rw [← hn]

theorem uploadsOf_eq_nil_of_not_mem (g : String) :
    ∀ evs : List NetEvent, g ∉ uploadNames evs → uploadsOf g evs = [] := by
  intro evs
  induction evs with
  | nil => intro h; rfl
  | cons e evs ih =>
    intro h
    cases e with
    | statusQuery s =>
      have h' : g ∉ uploadNames evs := by
        intro hmem
        apply h
        unfold uploadNames at hmem ⊢
        rw [List.filterMap_cons]
        exact hmem
      unfold uploadsOf
      rw [List.filterMap_cons]
      exact ih h'
    | uploadCall fe i =>
      have hnames : uploadNames (NetEvent.uploadCall fe i :: evs) =
          fe :: uploadNames evs := by
        unfold uploadNames
        rw [List.filterMap_cons]
      rw [hnames] at h
      have hne : fe ≠ g := fun hc => h (hc ▸ List.mem_cons_self fe _)
      have h' : g ∉ uploadNames evs := fun hmem => h (List.mem_cons_of_mem _ hmem)
      unfold uploadsOf
      rw [List.filterMap_cons]
      simp only [if_neg hne]
      exact ih h'

theorem mem_keys_of_mem_flatten_replicate (ks : List (String × Nat)) (f : String)
    (h : f ∈ (ks.map (fun p => List.replicate p.2 p.1)).flatten) :
    f ∈ ks.map Prod.fst := by
  obtain ⟨l, hl, hf⟩ := List.mem_flatten.mp h
  obtain ⟨p, hp, rfl⟩ := List.mem_map.mp hl
  exact List.mem_map.mpr ⟨p, hp, (List.eq_of_mem_replicate hf).symm⟩

/-- The keys of the grouping dict after one insertion. -/
theorem addToGroups_keys (r : BufferRow) :
    ∀ gs : List (String × List BufferRow),
      (addToGroups gs r).map Prod.fst =
        if r.fileName ∈ gs.map Prod.fst then gs.map Prod.fst
        else gs.map Prod.fst ++ [r.fileName] := by
  intro gs
  induction gs with
  | nil => simp [addToGroups]
  | cons g rest ih =>
    obtain ⟨f, rs⟩ := g
    by_cases hf : f = r.fileName
    · have hstep : addToGroups ((f, rs) :: rest) r = (f, rs ++ [r]) :: rest := by
        unfold addToGroups
        rw [if_pos hf]
      rw [hstep]
      rw [if_pos (by simp [hf])]
      simp
    · have hstep : addToGroups ((f, rs) :: rest) r = (f, rs) :: addToGroups rest r := by
        rw [addToGroups]
        rw [if_neg hf]
      rw [hstep]
      simp only [List.map_cons, ih]
      by_cases hmem : r.fileName ∈ rest.map Prod.fst
      · rw [if_pos hmem, if_pos (List.mem_cons_of_mem f hmem)]
      · rw [if_neg hmem,
          if_neg (by
            intro hc
            rcases List.mem_cons.mp hc with hc | hc
            · exact hf hc.symm
            · exact hmem hc)]
        rfl

theorem foldl_addToGroups_keys_nodup : ∀ (rows : List BufferRow)
    (gs : List (String × List BufferRow)), (gs.map Prod.fst).Nodup →
    ((rows.foldl addToGroups gs).map Prod.fst).Nodup := by
  intro rows
  induction rows with
  | nil => intro gs h; exact h
  | cons r rest ih =>
    intro gs h
    rw [List.foldl_cons]
    apply ih
    rw [addToGroups_keys r gs]
    by_cases hmem : r.fileName ∈ gs.map Prod.fst
    · rw [if_pos hmem]; exact h
    · rw [if_neg hmem]
      simp [List.nodup_append, h, hmem]

/-- The grouping dict has pairwise distinct file-name keys. -/
theorem groupByFile_keys_nodup (rows : List BufferRow) :
    ((groupByFile rows).map Prod.fst).Nodup :=
  foldl_addToGroups_keys_nodup rows [] (by simp)

instance : IsTotal BufferRow idxLe :=
  ⟨fun a b => Nat.le_total a.chunkIndex b.chunkIndex⟩

instance : IsTrans BufferRow idxLe :=
  ⟨fun _ _ _ hab hbc => Nat.le_trans hab hbc⟩

/-- Sortedness of the upload indices emitted for one file block. -/
theorem processFileChunks_uploads_sorted (net : Net) (mr : Nat) (d0 : ℚ)
    (f : String) (rows : List BufferRow) (sf : String) (received : List Int)
    (buf : List BufferRow) :
    (uploadsOf f (processFileChunks net mr d0 f (rows.insertionSort idxLe)
      sf received buf).2.2).Sorted (· ≤ ·) := by
  have hs := List.sorted_insertionSort idxLe rows
  have hmap : ((rows.insertionSort idxLe).map (fun r => r.chunkIndex)).Sorted (· ≤ ·) :=
    List.Pairwise.map _ (fun a b hab => hab) hs
  exact List.Pairwise.sublist
    (processFileChunks_events net mr d0 f (rows.insertionSort idxLe) sf received buf).1
    hmap

/-- The event trace of the multi-file loop: each file uploads its own
chunks in ascending index order, and the upload calls form consecutive
runs, one per processed file, with the run keys a subsequence of the
group keys. -/
theorem processFiles_events (net : Net) (mr : Nat) (d0 : ℚ) :
    ∀ (groups : List (String × List BufferRow)) (buf : List BufferRow),
      ((groups.map Prod.fst).Nodup) →
      (∀ g, (uploadsOf g (processFiles net mr d0 groups buf).2.2).Sorted (· ≤ ·)) ∧
      (∃ ks : List (String × Nat),
        (ks.map Prod.fst).Sublist (groups.map Prod.fst) ∧
        uploadNames (processFiles net mr d0 groups buf).2.2 =
          (ks.map (fun p => List.replicate p.2 p.1)).flatten) := by
  intro groups
  induction groups with
  | nil =>
    intro buf hnd
    exact ⟨fun g => List.sorted_nil, ⟨[], List.nil_sublist _, rfl⟩⟩
  | cons grp rest ih =>
    intro buf hnd
    obtain ⟨f, rows⟩ := grp
    have hpfc := processFileChunks_events net mr d0 f (rows.insertionSort idxLe)
      (basename f) (get_received_chunks_client (net.status (basename f))) buf
    have hblocksorted := processFileChunks_uploads_sorted net mr d0 f rows
      (basename f) (get_received_chunks_client (net.status (basename f))) buf
    obtain ⟨n, hn⟩ := uploadNames_all_f f _ hpfc.2
    have hnotin : f ∉ rest.map Prod.fst := by
      rw [List.map_cons] at hnd
      exact (List.nodup_cons.mp hnd).1
    have hndrest : (rest.map Prod.fst).Nodup := by
      rw [List.map_cons] at hnd
      exact (List.nodup_cons.mp hnd).2
    cases hresult : (processFileChunks net mr d0 f (rows.insertionSort idxLe)
        (basename f) (get_received_chunks_client (net.status (basename f))) buf).1 with
    | error e =>
      have hrun : (processFiles net mr d0 ((f, rows) :: rest) buf).2.2 =
          NetEvent.statusQuery (basename f) ::
            (processFileChunks net mr d0 f (rows.insertionSort idxLe) (basename f)
              (get_received_chunks_client (net.status (basename f))) buf).2.2 := by
        simp only [processFiles, hresult]
      rw [hrun]
      have hcons : ∀ g, uploadsOf g (NetEvent.statusQuery (basename f) ::
          (processFileChunks net mr d0 f (rows.insertionSort idxLe) (basename f)
            (get_received_chunks_client (net.status (basename f))) buf).2.2) =
          uploadsOf g ((processFileChunks net mr d0 f (rows.insertionSort idxLe)
            (basename f) (get_received_chunks_client (net.status (basename f)))
            buf).2.2) := by
        intro g
        unfold uploadsOf
        rw [List.filterMap_cons]
      constructor
      · intro g
        rw [hcons g]
        by_cases hg : g = f
        · rw [hg]
          exact hblocksorted
        · rw [uploadsOf_eq_nil_of_not_mem g _ (by
            rw [hn]
            intro hmem
            exact hg (List.eq_of_mem_replicate hmem))]
          exact List.sorted_nil
      · refine ⟨[(f, n)], ?_, ?_⟩
        · rw [List.map_cons]
          exact (List.nil_sublist _).cons₂ f
        · have hnames : uploadNames (NetEvent.statusQuery (basename f) ::
              (processFileChunks net mr d0 f (rows.insertionSort idxLe) (basename f)
                (get_received_chunks_client (net.status (basename f))) buf).2.2) =
              uploadNames ((processFileChunks net mr d0 f (rows.insertionSort idxLe)
                (basename f) (get_received_chunks_client (net.status (basename f)))
                buf).2.2) := by
            unfold uploadNames
            rw [List.filterMap_cons]
          rw [hnames, hn]
          simp
    | ok sfFinal =>
      have hrun : (processFiles net mr d0 ((f, rows) :: rest) buf).2.2 =
          NetEvent.statusQuery (basename f) ::
            ((processFileChunks net mr d0 f (rows.insertionSort idxLe) (basename f)
              (get_received_chunks_client (net.status (basename f))) buf).2.2 ++
             (processFiles net mr d0 rest
               (processFileChunks net mr d0 f (rows.insertionSort idxLe) (basename f)
                 (get_received_chunks_client (net.status (basename f))) buf).2.1).2.2) := by
        simp only [processFiles, hresult]
        cases hrest : (processFiles net mr d0 rest
            (processFileChunks net mr d0 f (rows.insertionSort idxLe) (basename f)
              (get_received_chunks_client (net.status (basename f))) buf).2.1).1 with
        | error e => simp [hrest]
        | ok results => simp [hrest]
      have hih := ih ((processFileChunks net mr d0 f (rows.insertionSort idxLe)
        (basename f) (get_received_chunks_client (net.status (basename f))) buf).2.1)
        hndrest
      have hsortedrest := hih.1
      obtain ⟨ks', hsub', hnames'⟩ := hih.2
      rw [hrun]
      have hsplit : ∀ g, uploadsOf g (NetEvent.statusQuery (basename f) ::
          ((processFileChunks net mr d0 f (rows.insertionSort idxLe) (basename f)
            (get_received_chunks_client (net.status (basename f))) buf).2.2 ++
           (processFiles net mr d0 rest
             (processFileChunks net mr d0 f (rows.insertionSort idxLe) (basename f)
               (get_received_chunks_client (net.status (basename f))) buf).2.1).2.2)) =
          uploadsOf g ((processFileChunks net mr d0 f (rows.insertionSort idxLe)
            (basename f) (get_received_chunks_client (net.status (basename f)))
            buf).2.2) ++
          uploadsOf g ((processFiles net mr d0 rest
            (processFileChunks net mr d0 f (rows.insertionSort idxLe) (basename f)
              (get_received_chunks_client (net.status (basename f))) buf).2.1).2.2) := by
        intro g
        unfold uploadsOf
        rw [List.filterMap_cons, List.filterMap_append]
      constructor
      · intro g
        rw [hsplit g]
        by_cases hg : g = f
        · subst hg
          rw [uploadsOf_eq_nil_of_not_mem g
              ((processFiles net mr d0 rest
                (processFileChunks net mr d0 g (rows.insertionSort idxLe) (basename g)
                  (get_received_chunks_client (net.status (basename g))) buf).2.1).2.2)
              (by
                rw [hnames']
                intro hmem
                exact hnotin (hsub'.mem (mem_keys_of_mem_flatten_replicate ks' g hmem)))]
          rw [List.append_nil]
          exact hblocksorted
        · rw [uploadsOf_eq_nil_of_not_mem g _ (by
            rw [hn]
            intro hmem
            exact hg (List.eq_of_mem_replicate hmem))]
          rw [List.nil_append]
          exact hsortedrest g
      · refine ⟨(f, n) :: ks', ?_, ?_⟩
        · rw [List.map_cons, List.map_cons]
          exact hsub'.cons₂ f
        · have hnames : uploadNames (NetEvent.statusQuery (basename f) ::
              ((processFileChunks net mr d0 f (rows.insertionSort idxLe) (basename f)
                (get_received_chunks_client (net.status (basename f))) buf).2.2 ++
               (processFiles net mr d0 rest
                 (processFileChunks net mr d0 f (rows.insertionSort idxLe) (basename f)
                   (get_received_chunks_client (net.status (basename f))) buf).2.1).2.2)) =
              uploadNames ((processFileChunks net mr d0 f (rows.insertionSort idxLe)
                (basename f) (get_received_chunks_client (net.status (basename f)))
                buf).2.2) ++
              uploadNames ((processFiles net mr d0 rest
                (processFileChunks net mr d0 f (rows.insertionSort idxLe) (basename f)
                  (get_received_chunks_client (net.status (basename f))) buf).2.1).2.2) := by
            unfold uploadNames
            rw [List.filterMap_cons, List.filterMap_append]
          rw [hnames, hn, hnames']
          rw [List.map_cons, List.flatten_cons]

/-- Counterexample to claim C3 as stated: two files are staged, every
delivery attempt for file `a` fails with a transport error, and the
server would accept file `b`; yet `upload_buffered_files` propagates the
re-raised error of file `a`, makes no upload call at all for file `b`
(the outer loop does NOT continue to the next file), and returns no
mapping. -/
theorem claim_C3_counterexample :
    (upload_buffered_files
      ⟨fun _ => .netError "down",
       fun f _ _ => if f = "a" then .requestError "conn reset"
         else .ok ⟨"Chunk received", some "b", some 0, some "b", false⟩⟩
      2 1 [⟨"a-0", "a", 0, [1]⟩, ⟨"b-0", "b", 0, [2]⟩]).1 =
      .error (.exhausted (some "conn reset")) ∧
    (upload_buffered_files
      ⟨fun _ => .netError "down",
       fun f _ _ => if f = "a" then .requestError "conn reset"
         else .ok ⟨"Chunk received", some "b", some 0, some "b", false⟩⟩
      2 1 [⟨"a-0", "a", 0, [1]⟩, ⟨"b-0", "b", 0, [2]⟩]).2.2 =
      [.statusQuery "a", .uploadCall "a" 0] ∧
    NetEvent.uploadCall "b" 0 ∉
      (upload_buffered_files
        ⟨fun _ => .netError "down",
         fun f _ _ => if f = "a" then .requestError "conn reset"
           else .ok ⟨"Chunk received", some "b", some 0, some "b", false⟩⟩
        2 1 [⟨"a-0", "a", 0, [1]⟩, ⟨"b-0", "b", 0, [2]⟩]).2.2 := by
  refine ⟨by decide, by decide, by decide⟩

/-- Claim C3 (amended): `upload_buffered_files` processes the staged
chunks grouped by file name — the upload calls form consecutive runs,
one per file, with pairwise distinct file names — and each file chunks
are uploaded in ascending index order; but a terminal failure (such as
retry exhaustion) on one file ABORTS the upload of the remaining files:
the error propagates out of the outer multi-file loop, which does not
continue to the next file and makes no further network call. -/
theorem claim_C3_amended (net : Net) (maxRetries : Nat) (d0 : ℚ)
    (buf : List BufferRow) (f : String) (rows : List BufferRow)
    (rest : List (String × List BufferRow)) (buf0 : List BufferRow)
    (e : ClientError)
    (herr : (processFileChunks net maxRetries d0 f (rows.insertionSort idxLe)
      (basename f) (get_received_chunks_client (net.status (basename f))) buf0).1 =
      .error e) :
    (∀ g, (uploadsOf g (upload_buffered_files net maxRetries d0 buf).2.2).Sorted
      (· ≤ ·)) ∧
    (∃ ks : List (String × Nat), (ks.map Prod.fst).Nodup ∧
      uploadNames (upload_buffered_files net maxRetries d0 buf).2.2 =
        (ks.map (fun p => List.replicate p.2 p.1)).flatten) ∧
    (processFiles net maxRetries d0 ((f, rows) :: rest) buf0).1 = .error e ∧
    (processFiles net maxRetries d0 ((f, rows) :: rest) buf0).2.2 =
      NetEvent.statusQuery (basename f) ::
        (processFileChunks net maxRetries d0 f (rows.insertionSort idxLe)
          (basename f) (get_received_chunks_client (net.status (basename f)))
          buf0).2.2 := by
  have hkeys := groupByFile_keys_nodup (buf.insertionSort rowLe)
  have hmain := processFiles_events net maxRetries d0
    (groupByFile (buf.insertionSort rowLe)) buf hkeys
  have habort : processFiles net maxRetries d0 ((f, rows) :: rest) buf0 =
      (.error e,
       (processFileChunks net maxRetries d0 f (rows.insertionSort idxLe) (basename f)
         (get_received_chunks_client (net.status (basename f))) buf0).2.1,
       NetEvent.statusQuery (basename f) ::
         (processFileChunks net maxRetries d0 f (rows.insertionSort idxLe) (basename f)
           (get_received_chunks_client (net.status (basename f))) buf0).2.2) := by
    simp only [processFiles, herr]
  by_cases hemp : (buf.insertionSort rowLe).isEmpty = true
  · have hubf : upload_buffered_files net maxRetries d0 buf = (.ok [], buf, []) := by
      unfold upload_buffered_files
      rw [if_pos hemp]
    rw [hubf, habort]
    exact ⟨fun g => List.sorted_nil, ⟨[], by simp, rfl⟩, rfl, rfl⟩
  · have hubf : upload_buffered_files net maxRetries d0 buf =
        processFiles net maxRetries d0 (groupByFile (buf.insertionSort rowLe)) buf := by
      unfold upload_buffered_files
      rw [if_neg hemp]
    rw [hubf, habort]
    obtain ⟨ks, hsub, hnames⟩ := hmain.2
    exact ⟨hmain.1, ⟨ks, hsub.nodup hkeys, hnames⟩, rfl, rfl⟩

theorem claim_C3_witness :
    ((processFileChunks
      ⟨fun _ => .netError "down",
       fun f _ _ => if f = "a" then .requestError "conn reset"
         else .ok ⟨"Chunk received", some "b", some 0, some "b", false⟩⟩
      2 1 "a" ([(⟨"a-0", "a", 0, [1]⟩ : BufferRow)].insertionSort idxLe)
      (basename "a")
      (get_received_chunks_client
        ((⟨fun _ => .netError "down",
          fun f _ _ => if f = "a" then .requestError "conn reset"
            else .ok ⟨"Chunk received", some "b", some 0, some "b", false⟩⟩ : Net).status
          (basename "a")))
      [⟨"a-0", "a", 0, [1]⟩, ⟨"b-0", "b", 0, [2]⟩]).1 =
      .error (.exhausted (some "conn reset"))) ∧
    ((∀ g, (uploadsOf g (upload_buffered_files
        ⟨fun _ => .netError "down",
         fun f _ _ => if f = "a" then .requestError "conn reset"
           else .ok ⟨"Chunk received", some "b", some 0, some "b", false⟩⟩
        2 1 [⟨"a-0", "a", 0, [1]⟩, ⟨"b-0", "b", 0, [2]⟩]).2.2).Sorted (· ≤ ·)) ∧
     (∃ ks : List (String × Nat), (ks.map Prod.fst).Nodup ∧
       uploadNames (upload_buffered_files
         ⟨fun _ => .netError "down",
          fun f _ _ => if f = "a" then .requestError "conn reset"
            else .ok ⟨"Chunk received", some "b", some 0, some "b", false⟩⟩
         2 1 [⟨"a-0", "a", 0, [1]⟩, ⟨"b-0", "b", 0, [2]⟩]).2.2 =
         (ks.map (fun p => List.replicate p.2 p.1)).flatten) ∧
     (processFiles
       ⟨fun _ => .netError "down",
        fun f _ _ => if f = "a" then .requestError "conn reset"
          else .ok ⟨"Chunk received", some "b", some 0, some "b", false⟩⟩
       2 1 [("a", [⟨"a-0", "a", 0, [1]⟩]), ("b", [⟨"b-0", "b", 0, [2]⟩])]
       [⟨"a-0", "a", 0, [1]⟩, ⟨"b-0", "b", 0, [2]⟩]).1 =
       .error (.exhausted (some "conn reset")) ∧
     (processFiles
       ⟨fun _ => .netError "down",
        fun f _ _ => if f = "a" then .requestError "conn reset"
          else .ok ⟨"Chunk received", some "b", some 0, some "b", false⟩⟩
       2 1 [("a", [⟨"a-0", "a", 0, [1]⟩]), ("b", [⟨"b-0", "b", 0, [2]⟩])]
       [⟨"a-0", "a", 0, [1]⟩, ⟨"b-0", "b", 0, [2]⟩]).2.2 =
       NetEvent.statusQuery (basename "a") ::
         (processFileChunks
           ⟨fun _ => .netError "down",
            fun f _ _ => if f = "a" then .requestError "conn reset"
              else .ok ⟨"Chunk received", some "b", some 0, some "b", false⟩⟩
           2 1 "a" ([(⟨"a-0", "a", 0, [1]⟩ : BufferRow)].insertionSort idxLe)
           (basename "a")
           (get_received_chunks_client
             ((⟨fun _ => .netError "down",
               fun f _ _ => if f = "a" then .requestError "conn reset"
                 else .ok ⟨"Chunk received", some "b", some 0, some "b", false⟩⟩ : Net).status
               (basename "a")))
           [⟨"a-0", "a", 0, [1]⟩, ⟨"b-0", "b", 0, [2]⟩]).2.2) :=
  ⟨by decide,
   claim_C3_amended
     ⟨fun _ => .netError "down",
      fun f _ _ => if f = "a" then .requestError "conn reset"
        else .ok ⟨"Chunk received", some "b", some 0, some "b", false⟩⟩
     2 1 [⟨"a-0", "a", 0, [1]⟩, ⟨"b-0", "b", 0, [2]⟩]
     "a" [⟨"a-0", "a", 0, [1]⟩] [("b", [⟨"b-0", "b", 0, [2]⟩])]
     [⟨"a-0", "a", 0, [1]⟩, ⟨"b-0", "b", 0, [2]⟩]
     (.exhausted (some "conn reset"))
     (by decide)⟩

end IndexedCP
